import Mathlib

/-!
# Verification of the website-builder generation and file-expansion layer

This file gives a shallow embedding, in Lean, of the protocol/logic core of the
website-builder repository: the project expander (`createProjectFiles`,
`getExpandedProjectFiles`, `fixImports`), the prompt composer
(`buildSystemPrompt`, `buildCompactSystemPrompt`, `getSystemPrompt`), the
tool-call argument parser (`parseToolArguments` with its `JSON.parse` model),
the code sanitizer (`sanitizeCode`), the CSS-import extractor
(`extractCssImports`), the streaming event generator of the
`generate-stream` route, the model-fallback client (`callGroqAPI`), and the
file post-processing of the non-streaming `generate` route.

JavaScript idioms are modelled explicitly:
* objects (`Record<string, string>`) are association lists with
  JavaScript assignment semantics (`jsSet`: update in place or append);
* the string `||` fallback is `jsOrS` (empty string counts as falsy);
* every regular-expression transform of the source is implemented as an
  explicit character scanner with the exact greedy/lazy semantics of the
  original pattern (noted next to each definition);
* `String.prototype.replace` with a string pattern replaces the first
  occurrence only (`replaceFirst`); with a `/g` regex it is a left-to-right
  scan that resumes after each match (`scanReplace`).

Literal strings from the source are transcribed exactly; apostrophes are
written with the escape `\x27` and braces with `\x7b`/`\x7d`.
-/

set_option maxRecDepth 100000

namespace WebBuilder

/-- The apostrophe character (U+0027). -/
def sq : Char := Char.ofNat 39

/-- The double-quote character (U+0022). -/
def dq : Char := Char.ofNat 34

/-- JavaScript `\s` for the character ranges used by this code base
(space, tab, newline, carriage return, vertical tab, form feed;
exotic Unicode spaces do not occur in the strings this repository handles). -/
def isWsChar (c : Char) : Bool :=
  c = ' ' || c = '\t' || c = '\n' || c = '\r' || c = Char.ofNat 11 || c = Char.ofNat 12

/-- JavaScript `\w`: ASCII letters, digits and underscore. -/
def isWordChar (c : Char) : Bool :=
  c.isAlpha || c.isDigit || c = '_'

/-- Quote alternatives of the character class used in the import regexes. -/
def isQuoteChar (c : Char) : Bool :=
  c = sq || c = dq

/-- Lookup in a JavaScript object seen as an association list
(`obj[k]`, `undefined` becoming `none`). -/
def jsGet {α : Type} (l : List (String × α)) (k : String) : Option α :=
  match l with
  | [] => none
  | (k', v) :: t => if k' = k then some v else jsGet t k

/-- Assignment `obj[k] = v` on a JavaScript object: an existing key keeps its
position and gets the new value, a fresh key is appended. -/
def jsSet {α : Type} (l : List (String × α)) (k : String) (v : α) : List (String × α) :=
  match l with
  | [] => [(k, v)]
  | (k', v') :: t => if k' = k then (k, v) :: t else (k', v') :: jsSet t k v

/-- JavaScript `o || d` for an optional string: `undefined` and `""` are falsy. -/
def jsOrS (o : Option String) (d : String) : String :=
  match o with
  | some s => if s = "" then d else s
  | none => d

/-- Match a literal character sequence at the head of the input and return the
rest on success. -/
def eatLit : List Char → List Char → Option (List Char)
  | [], cs => some cs
  | _ :: _, [] => none
  | p :: ps, c :: cs => if c = p then eatLit ps cs else none

/-- Consume a maximal (possibly empty) run of `\s` characters,
returning the run and the rest. -/
def eatWsStar : List Char → List Char × List Char
  | [] => ([], [])
  | c :: cs =>
    if isWsChar c then
      let (w, r) := eatWsStar cs
      (c :: w, r)
    else ([], c :: cs)

/-- Consume a maximal nonempty run of `\s` characters (`\s+`). -/
def eatWsPlus (cs : List Char) : Option (List Char × List Char) :=
  match cs with
  | [] => none
  | c :: cs' =>
    if isWsChar c then
      let (w, r) := eatWsStar cs'
      some (c :: w, r)
    else none

/-- Consume a maximal (possibly empty) run of `\w` characters. -/
def eatWordStar : List Char → List Char × List Char
  | [] => ([], [])
  | c :: cs =>
    if isWordChar c then
      let (w, r) := eatWordStar cs
      (c :: w, r)
    else ([], c :: cs)

/-- Consume a maximal nonempty run of `\w` characters (`\w+`). -/
def eatWordPlus (cs : List Char) : Option (List Char × List Char) :=
  match cs with
  | [] => none
  | c :: cs' =>
    if isWordChar c then
      let (w, r) := eatWordStar cs'
      some (c :: w, r)
    else none

/-- One pass of a global (`/g`) unanchored regex replace: at each position try
the matcher (which returns the replacement text and the rest of the input
after the match); on success emit the replacement and resume after the match,
otherwise copy one character.  `fuel` bounds the recursion; it is called with
`length + 1`, which is enough since every match consumes at least one
character. -/
def scanReplace (try1 : List Char → Option (List Char × List Char)) : Nat → List Char → List Char
  | 0, cs => cs
  | _ + 1, [] => []
  | fuel + 1, c :: cs =>
    match try1 (c :: cs) with
    | some (repl, rest) => repl ++ scanReplace try1 fuel rest
    | none => c :: scanReplace try1 fuel cs

/-- Run a global regex replace on a string. -/
def runReplace (try1 : List Char → Option (List Char × List Char)) (s : String) : String :=
  String.mk (scanReplace try1 (s.data.length + 1) s.data)

/-- `String.prototype.replace` with a plain string pattern: replace the first
occurrence only. -/
def replaceFirstList (pat repl : List Char) : List Char → List Char
  | [] => []
  | c :: cs =>
    match eatLit pat (c :: cs) with
    | some rest => repl ++ rest
    | none => c :: replaceFirstList pat repl cs

/-- String wrapper for `replaceFirstList`.  (If the pattern is empty,
JavaScript inserts the replacement at the start; the patterns used in the
source are never empty.) -/
def replaceFirst (s pat repl : String) : String :=
  if pat = "" then repl ++ s
  else String.mk (replaceFirstList pat.data repl.data s.data)

/-- Substring test (`String.prototype.includes`): try the pattern at every
position of the input. -/
def strContainsAt (ps : List Char) : List Char → Bool
  | [] => (eatLit ps []).isSome
  | c :: cs => (eatLit ps (c :: cs)).isSome || strContainsAt ps cs

/-- `s.includes pat` for strings. -/
def strContainsB (s pat : String) : Bool :=
  strContainsAt pat.data s.data

/-- `String.prototype.startsWith`. -/
def strStartsWith (s pre : String) : Bool :=
  pre.data.isPrefixOf s.data

/-- `String.prototype.endsWith`. -/
def strEndsWith (s suf : String) : Bool :=
  suf.data.reverse.isPrefixOf s.data.reverse

/-! ## ProjectExpander (`lib/webcontainer-files.ts`) -/

/-- Matcher for the first `fixImports` regex
`/from ['"]\.\/components\/(\w+)['"]/g` with replacement
`"from './components/$1.jsx'"`.  The two quote positions are independent
character classes, exactly as in the pattern. -/
def tryImportFix1 (cs : List Char) : Option (List Char × List Char) := do
  let r1 ← eatLit "from ".data cs
  match r1 with
  | [] => none
  | q1 :: r2 =>
    if isQuoteChar q1 then do
      let r3 ← eatLit "./components/".data r2
      let (w, r4) ← eatWordPlus r3
      match r4 with
      | [] => none
      | q2 :: r5 =>
        if isQuoteChar q2 then
          some (("from \x27./components/".data ++ w ++ ".jsx\x27".data), r5)
        else none
    else none

/-- Matcher for the second `fixImports` regex
`/from ['"]\.\/components\/(\w+)\.js['"]/g` with replacement
`"from './components/$1.jsx'"`. -/
def tryImportFix2 (cs : List Char) : Option (List Char × List Char) := do
  let r1 ← eatLit "from ".data cs
  match r1 with
  | [] => none
  | q1 :: r2 =>
    if isQuoteChar q1 then do
      let r3 ← eatLit "./components/".data r2
      let (w, r4) ← eatWordPlus r3
      let r5 ← eatLit ".js".data r4
      match r5 with
      | [] => none
      | q2 :: r6 =>
        if isQuoteChar q2 then
          some (("from \x27./components/".data ++ w ++ ".jsx\x27".data), r6)
        else none
    else none

/-- `fixImports` of `lib/webcontainer-files.ts`: rewrite
`from './components/Name'` and then `from './components/Name.js'` to
`from './components/Name.jsx'` (two successive global replaces). -/
def fixImports (code : String) : String :=
  runReplace tryImportFix2 (runReplace tryImportFix1 code)

/-- A WebContainer `FileSystemTree`: named files and directories. -/
inductive FSTree : Type where
  | file (contents : String)
  | dir (entries : List (String × FSTree))

/-- Observation helper: project the contents out of a file node. -/
def fileOf : Option FSTree → Option String
  | some (.file s) => some s
  | _ => none

/-- Observation helper: follow a path of names through a tree and return the
file contents found there. -/
def treeGetFile (entries : List (String × FSTree)) : List String → Option String
  | [] => none
  | [k] => fileOf (jsGet entries k)
  | k :: ks =>
    match jsGet entries k with
    | some (.dir es) => treeGetFile es ks
    | _ => none

/-- `fileName.replace(".js", ".jsx")` applied when the name ends in `.js`
(the `replace` rewrites the first occurrence, as in JavaScript). -/
def jsxFileName (fileName : String) : String :=
  if strEndsWith fileName ".js" then replaceFirst fileName ".js" ".jsx" else fileName

/-- Key under which a `/components/...` input file is stored:
`path.replace("/components/", "")` followed by the `.js` → `.jsx` renaming. -/
def componentKey (path : String) : String :=
  jsxFileName (replaceFirst path "/components/" "")

/-- The `componentsDir` loop of `createProjectFiles`: component file contents
are copied verbatim (no import rewriting) under the renamed key. -/
def createComponentsDir (userFiles : List (String × String)) : List (String × FSTree) :=
  userFiles.foldl
    (fun acc e =>
      if strStartsWith e.1 "/components/" then jsSet acc (componentKey e.1) (FSTree.file e.2)
      else acc)
    []

/-- Built-in placeholder `App` component used when `/App.js` is absent (or empty). -/
def placeholderApp : String :=
  "export default function App() \x7b\n  return (\n    <div className=\"min-h-screen bg-gradient-to-br from-slate-50 to-blue-50 flex items-center justify-center\">\n      <div className=\"text-center\">\n        <h1 className=\"text-4xl font-bold text-slate-900\">Ready to Build</h1>\n        <p className=\"text-slate-600 mt-2\">Describe what you want to create</p>\n      </div>\n    </div>\n  )\n\x7d"

/-- Serialized form of the `JSON.stringify(..., null, 2)` package manifest. -/
def pkgJsonStr : String :=
  "\x7b\n  \"name\": \"vite-react-app\",\n  \"private\": true,\n  \"version\": \"0.0.0\",\n  \"type\": \"module\",\n  \"scripts\": \x7b\n    \"dev\": \"vite\",\n    \"build\": \"vite build\",\n    \"preview\": \"vite preview\"\n  \x7d,\n  \"dependencies\": \x7b\n    \"react\": \"^18.2.0\",\n    \"react-dom\": \"^18.2.0\"\n  \x7d,\n  \"devDependencies\": \x7b\n    \"@vitejs/plugin-react\": \"^4.2.1\",\n    \"autoprefixer\": \"^10.4.18\",\n    \"postcss\": \"^8.4.35\",\n    \"tailwindcss\": \"^3.4.1\",\n    \"vite\": \"^5.1.4\"\n  \x7d\n\x7d"

/-- `vite.config.js` contents. -/
def viteConfigStr : String :=
  "import \x7b defineConfig \x7d from \x27vite\x27\nimport react from \x27@vitejs/plugin-react\x27\n\nexport default defineConfig(\x7b\n  plugins: [react()],\n  server: \x7b\n    host: true,\n    port: 5173,\n    strictPort: true,\n  \x7d,\n\x7d)"

/-- `index.html` contents. -/
def indexHtmlStr : String :=
  "<!DOCTYPE html>\n<html lang=\"en\">\n  <head>\n    <meta charset=\"UTF-8\" />\n    <link rel=\"icon\" type=\"image/svg+xml\" href=\"/vite.svg\" />\n    <meta name=\"viewport\" content=\"width=device-width, initial-scale=1.0\" />\n    <title>Preview</title>\n  </head>\n  <body>\n    <div id=\"root\"></div>\n    <script type=\"module\" src=\"/src/main.jsx\"></script>\n  </body>\n</html>"

/-- `tailwind.config.js` contents of `createProjectFiles` (extended palette). -/
def tailwindCfgCreateStr : String :=
  "/** @type \x7bimport(\x27tailwindcss\x27).Config\x7d */\nexport default \x7b\n  content: [\n    \"./index.html\",\n    \"./src/**/*.\x7bjs,ts,jsx,tsx\x7d\",\n  ],\n  theme: \x7b\n    extend: \x7b\n      colors: \x7b\n        primary: \x7b\n          50: \x27#eff6ff\x27,\n          100: \x27#dbeafe\x27,\n          200: \x27#bfdbfe\x27,\n          300: \x27#93c5fd\x27,\n          400: \x27#60a5fa\x27,\n          500: \x27#3b82f6\x27,\n          600: \x27#2563eb\x27,\n          700: \x27#1d4ed8\x27,\n          800: \x27#1e40af\x27,\n          900: \x27#1e3a8a\x27,\n        \x7d,\n      \x7d,\n    \x7d,\n  \x7d,\n  plugins: [],\n\x7d"

/-- `postcss.config.js` contents. -/
def postcssCfgStr : String :=
  "export default \x7b\n  plugins: \x7b\n    tailwindcss: \x7b\x7d,\n    autoprefixer: \x7b\x7d,\n  \x7d,\n\x7d"

/-- `src/main.jsx` contents. -/
def mainJsxStr : String :=
  "import React from \x27react\x27\nimport ReactDOM from \x27react-dom/client\x27\nimport App from \x27./App.jsx\x27\nimport \x27./index.css\x27\n\nReactDOM.createRoot(document.getElementById(\x27root\x27)).render(\n  <React.StrictMode>\n    <App />\n  </React.StrictMode>,\n)"

/-- `src/index.css` template of `createProjectFiles` (framework layers, the
custom CSS, then base styles). -/
def indexCssCreate (customCSS : String) : String :=
  "@tailwind base;\n@tailwind components;\n@tailwind utilities;\n\n/* Custom styles */\n" ++ customCSS ++ "\n\n/* Base styles */\n* \x7b\n  margin: 0;\n  padding: 0;\n  box-sizing: border-box;\n\x7d\n\nbody \x7b\n  font-family: system-ui, -apple-system, BlinkMacSystemFont, \x27Segoe UI\x27, Roboto, \x27Helvetica Neue\x27, Arial, sans-serif;\n  -webkit-font-smoothing: antialiased;\n  -moz-osx-font-smoothing: grayscale;\n\x7d"

/-- `public/vite.svg` contents. -/
def viteSvgStr : String :=
  "<svg xmlns=\"http://www.w3.org/2000/svg\" xmlns:xlink=\"http://www.w3.org/1999/xlink\" aria-hidden=\"true\" role=\"img\" class=\"iconify iconify--logos\" width=\"31.88\" height=\"32\" preserveAspectRatio=\"xMidYMid meet\" viewBox=\"0 0 256 257\"><defs><linearGradient id=\"IconifyId1813088fe1fbc01fb466\" x1=\"-.828%\" x2=\"57.636%\" y1=\"7.652%\" y2=\"78.411%\"><stop offset=\"0%\" stop-color=\"#41D1FF\"></stop><stop offset=\"100%\" stop-color=\"#BD34FE\"></stop></linearGradient><linearGradient id=\"IconifyId1813088fe1fbc01fb467\" x1=\"43.376%\" x2=\"50.316%\" y1=\"2.242%\" y2=\"89.03%\"><stop offset=\"0%\" stop-color=\"#FFBD4F\"></stop><stop offset=\"100%\" stop-color=\"#FF980E\"></stop></linearGradient></defs><path fill=\"url(#IconifyId1813088fe1fbc01fb466)\" d=\"M255.153 37.938L134.897 252.976c-2.483 4.44-8.862 4.466-11.382.048L.875 37.958c-2.746-4.814 1.371-10.646 6.827-9.67l120.385 21.517a6.537 6.537 0 0 0 2.322-.004l117.867-21.483c5.438-.991 9.574 4.796 6.877 9.62Z\"></path><path fill=\"url(#IconifyId1813088fe1fbc01fb467)\" d=\"M185.432.063L96.44 17.501a3.268 3.268 0 0 0-2.634 3.014l-5.474 92.456a3.268 3.268 0 0 0 3.997 3.378l24.777-5.718c2.318-.535 4.413 1.507 3.936 3.838l-7.361 36.047c-.495 2.426 1.782 4.5 4.151 3.78l15.304-4.649c2.372-.72 4.652 1.36 4.15 3.788l-11.698 56.621c-.732 3.542 3.979 5.473 5.943 2.437l1.313-2.028l72.516-144.72c1.215-2.423-.88-5.186-3.54-4.672l-25.505 4.922c-2.396.462-4.435-1.77-3.759-4.114l16.646-57.705c.677-2.35-1.37-4.583-3.769-4.113Z\"></path></svg>"

/-- `createProjectFiles` of `lib/webcontainer-files.ts`: the complete
WebContainer file tree.  The App entry gets `fixImports`; component files are
copied verbatim by `createComponentsDir`. -/
def createProjectFiles (userFiles : List (String × String)) : List (String × FSTree) :=
  let componentsDir := createComponentsDir userFiles
  let appContent := jsOrS (jsGet userFiles "/App.js") placeholderApp
  let customCSS := jsOrS (jsGet userFiles "/styles.css") (jsOrS (jsGet userFiles "/App.css") "")
  [ ("package.json", .file pkgJsonStr),
    ("vite.config.js", .file viteConfigStr),
    ("index.html", .file indexHtmlStr),
    ("tailwind.config.js", .file tailwindCfgCreateStr),
    ("postcss.config.js", .file postcssCfgStr),
    ("src", .dir
      [ ("main.jsx", .file mainJsxStr),
        ("index.css", .file (indexCssCreate customCSS)),
        ("App.jsx", .file (fixImports appContent)),
        ("components", .dir componentsDir) ]),
    ("public", .dir [("vite.svg", .file viteSvgStr)]) ]

/-- `tailwind.config.js` contents of `getExpandedProjectFiles` (plain theme). -/
def tailwindCfgExpandedStr : String :=
  "/** @type \x7bimport(\x27tailwindcss\x27).Config\x7d */\nexport default \x7b\n  content: [\n    \"./index.html\",\n    \"./src/**/*.\x7bjs,ts,jsx,tsx\x7d\",\n  ],\n  theme: \x7b\n    extend: \x7b\x7d,\n  \x7d,\n  plugins: [],\n\x7d"

/-- `src/index.css` template of `getExpandedProjectFiles`. -/
def indexCssExpanded (customCSS : String) : String :=
  "@tailwind base;\n@tailwind components;\n@tailwind utilities;\n\n" ++ customCSS

/-- `getExpandedProjectFiles` of `lib/webcontainer-files.ts`: flat path → text
map shown in the UI.  The App entry falls back to the empty string (not the
placeholder) and both the App entry and every copied component file go through
`fixImports`. -/
def getExpandedProjectFiles (userFiles : List (String × String)) : List (String × String) :=
  let customCSS := jsOrS (jsGet userFiles "/styles.css") (jsOrS (jsGet userFiles "/App.css") "")
  let appContent := jsOrS (jsGet userFiles "/App.js") ""
  let expanded : List (String × String) :=
    [ ("/package.json", pkgJsonStr),
      ("/vite.config.js", viteConfigStr),
      ("/index.html", indexHtmlStr),
      ("/tailwind.config.js", tailwindCfgExpandedStr),
      ("/src/main.jsx", mainJsxStr),
      ("/src/index.css", indexCssExpanded customCSS),
      ("/src/App.jsx", fixImports appContent) ]
  userFiles.foldl
    (fun acc e =>
      if strStartsWith e.1 "/components/" then
        jsSet acc ("/src/components/" ++ componentKey e.1) (fixImports e.2)
      else acc)
    expanded

/-! ## Association-list and component-loop lemmas -/

theorem jsGet_jsSet_self {α : Type} (l : List (String × α)) (k : String) (v : α) :
    jsGet (jsSet l k v) k = some v := by
  induction l with
  | nil => simp [jsSet, jsGet]
  | cons h t ih =>
    obtain ⟨k', v'⟩ := h
    by_cases hk : k' = k <;> simp [jsSet, jsGet, hk, ih]

theorem jsGet_jsSet_ne {α : Type} (l : List (String × α)) (k k' : String) (v : α)
    (h : k' ≠ k) : jsGet (jsSet l k v) k' = jsGet l k' := by
  have h' : ¬(k = k') := fun hh => h hh.symm
  induction l with
  | nil => simp [jsSet, jsGet, h']
  | cons hd t ih =>
    obtain ⟨k'', v''⟩ := hd
    by_cases hk : k'' = k
    · subst hk
      simp [jsSet, jsGet, h']
    · simp only [jsSet, if_neg hk]
      by_cases hk2 : k'' = k' <;> simp [jsGet, hk2, ih]

/-- If none of the `/components/` entries of `uf` maps to the key `k`, the
component-copy loop leaves `jsGet · k` unchanged. -/
theorem compLoop_skip {α : Type} (keyFn : String → String) (tr : String → α)
    (uf : List (String × String)) (acc : List (String × α)) (k : String)
    (h : ∀ e ∈ uf, strStartsWith e.1 "/components/" = true → keyFn e.1 ≠ k) :
    jsGet (uf.foldl
      (fun acc e =>
        if strStartsWith e.1 "/components/" then jsSet acc (keyFn e.1) (tr e.2) else acc)
      acc) k = jsGet acc k := by
  induction uf generalizing acc with
  | nil => rfl
  | cons hd t ih =>
    obtain ⟨q, d⟩ := hd
    simp only [List.foldl_cons]
    by_cases hq : strStartsWith q "/components/" = true
    · rw [if_pos hq, ih _ (fun e he hs => h e (List.mem_cons_of_mem _ he) hs),
        jsGet_jsSet_ne]
      exact fun hh => h (q, d) (List.mem_cons_self _ _) hq hh.symm
    · rw [if_neg hq]
      exact ih _ (fun e he hs => h e (List.mem_cons_of_mem _ he) hs)

/-- The component-copy loop stores `tr c` under `keyFn p` for each
`/components/` entry `(p, c)`, provided the generated keys are distinct. -/
theorem compLoop_mem {α : Type} (keyFn : String → String) (tr : String → α)
    (uf : List (String × String)) (acc : List (String × α)) (p c : String)
    (hmem : (p, c) ∈ uf) (hp : strStartsWith p "/components/" = true)
    (hnodup : ((uf.filter (fun e => strStartsWith e.1 "/components/")).map
      (fun e => keyFn e.1)).Nodup) :
    jsGet (uf.foldl
      (fun acc e =>
        if strStartsWith e.1 "/components/" then jsSet acc (keyFn e.1) (tr e.2) else acc)
      acc) (keyFn p) = some (tr c) := by
  induction uf generalizing acc with
  | nil => cases hmem
  | cons hd t ih =>
    obtain ⟨q, d⟩ := hd
    simp only [List.foldl_cons]
    rcases List.mem_cons.mp hmem with heq | hmemt
    · obtain ⟨hq, hd⟩ := Prod.mk.injEq .. ▸ heq
      subst hq; subst hd
      rw [if_pos hp]
      have hfil : ((p, c) :: t).filter (fun e => strStartsWith e.1 "/components/")
          = (p, c) :: t.filter (fun e => strStartsWith e.1 "/components/") := by
        simp [List.filter_cons, hp]
      rw [hfil, List.map_cons, List.nodup_cons] at hnodup
      rw [compLoop_skip]
      · exact jsGet_jsSet_self ..
      · intro e he hs habs
        exact hnodup.1 (habs ▸ List.mem_map_of_mem _ (List.mem_filter.mpr ⟨he, hs⟩))
    · have hnodup' : ((t.filter (fun e => strStartsWith e.1 "/components/")).map
          (fun e => keyFn e.1)).Nodup := by
        by_cases hq : strStartsWith q "/components/" = true
        · have : (((q, d) :: t).filter (fun e => strStartsWith e.1 "/components/"))
              = (q, d) :: t.filter (fun e => strStartsWith e.1 "/components/") := by
            simp [List.filter_cons, hq]
          rw [this, List.map_cons, List.nodup_cons] at hnodup
          exact hnodup.2
        · have : (((q, d) :: t).filter (fun e => strStartsWith e.1 "/components/"))
              = t.filter (fun e => strStartsWith e.1 "/components/") := by
            simp [List.filter_cons, hq]
          rwa [this] at hnodup
      by_cases hq : strStartsWith q "/components/" = true
      · rw [if_pos hq]; exact ih _ hmemt hnodup'
      · rw [if_neg hq]; exact ih _ hmemt hnodup'

/-- Strings formed by prefixing `/src/components/` are pairwise distinct iff
the suffixes are (used to transport the key-distinctness hypothesis). -/
theorem srcComponentsKey_inj : Function.Injective (fun s => "/src/components/" ++ s) := by
  intro a b hab
  have h := congrArg String.data hab
  simp only [String.data_append] at h
  exact String.ext (List.append_cancel_left h)


/-! ## Claims C1, C6, C10 — project expansion -/

/-- Navigation fact: the App entry of the WebContainer tree. -/
theorem create_app_entry (uf : List (String × String)) :
    treeGetFile (createProjectFiles uf) ["src", "App.jsx"]
      = some (fixImports (jsOrS (jsGet uf "/App.js") placeholderApp)) := rfl

/-- Navigation fact: the `src/index.css` entry of the WebContainer tree. -/
theorem create_index_css_entry (uf : List (String × String)) :
    treeGetFile (createProjectFiles uf) ["src", "index.css"]
      = some (indexCssCreate (jsOrS (jsGet uf "/styles.css")
          (jsOrS (jsGet uf "/App.css") ""))) := rfl

/-- Navigation fact: component files of the WebContainer tree come from
`createComponentsDir`. -/
theorem create_component_entry (uf : List (String × String)) (k : String) :
    treeGetFile (createProjectFiles uf) ["src", "components", k]
      = fileOf (jsGet (createComponentsDir uf) k) := rfl

/-- C1, counterexample: import-path normalization is NOT applied to every file
whose content is copied into the expanded project tree.  In the WebContainer
tree built by `createProjectFiles`, the component file `/components/A.js` is
copied to `src/components/A.jsx` verbatim: its import `from './components/B'`
is still there, although `fixImports` would have rewritten it to
`'./components/B.jsx'`. -/
theorem C1_counterexample :
    treeGetFile (createProjectFiles [("/components/A.js", "import B from \x27./components/B\x27")])
      ["src", "components", "A.jsx"] = some "import B from \x27./components/B\x27"
    ∧ fixImports "import B from \x27./components/B\x27"
        ≠ "import B from \x27./components/B\x27" := by
  constructor
  · decide
  · decide

/-- C1 (amended): import-path normalization is applied to every copied
component file in the UI expansion `getExpandedProjectFiles` (which stores
`fixImports content` under `/src/components/<Name>.jsx`), but
`createProjectFiles` copies component contents into the WebContainer tree
verbatim; only the App entry is normalized there. -/
theorem C1_amended (uf : List (String × String)) (p c : String)
    (hmem : (p, c) ∈ uf) (hp : strStartsWith p "/components/" = true)
    (hnodup : ((uf.filter (fun e => strStartsWith e.1 "/components/")).map
      (fun e => componentKey e.1)).Nodup) :
    jsGet (getExpandedProjectFiles uf) ("/src/components/" ++ componentKey p)
      = some (fixImports c)
    ∧ treeGetFile (createProjectFiles uf) ["src", "components", componentKey p]
      = some c := by
  constructor
  · have hnodup2 : ((uf.filter (fun e => strStartsWith e.1 "/components/")).map
        (fun e => "/src/components/" ++ componentKey e.1)).Nodup := by
      have hmm : (uf.filter (fun e => strStartsWith e.1 "/components/")).map
          (fun e => "/src/components/" ++ componentKey e.1)
          = ((uf.filter (fun e => strStartsWith e.1 "/components/")).map
              (fun e => componentKey e.1)).map (fun s => "/src/components/" ++ s) := by
        rw [List.map_map]; rfl
      rw [hmm]
      exact hnodup.map srcComponentsKey_inj
    simpa only [getExpandedProjectFiles] using
      compLoop_mem (fun s => "/src/components/" ++ componentKey s) fixImports uf _ p c
        hmem hp hnodup2
  · have hcomp : jsGet (createComponentsDir uf) (componentKey p) = some (FSTree.file c) := by
      simpa only [createComponentsDir] using
        compLoop_mem componentKey FSTree.file uf [] p c hmem hp hnodup
    rw [create_component_entry, hcomp]
    rfl

/-- C1, witness for the amended theorem at a concrete input. -/
theorem C1_witness :
    jsGet (getExpandedProjectFiles [("/components/A.js", "x")])
      ("/src/components/" ++ componentKey "/components/A.js") = some (fixImports "x")
    ∧ treeGetFile (createProjectFiles [("/components/A.js", "x")])
        ["src", "components", componentKey "/components/A.js"] = some "x" :=
  C1_amended [("/components/A.js", "x")] "/components/A.js" "x"
    (by simp) (by decide) (by decide)

/-- Keys written by the `getExpandedProjectFiles` component loop all live under
`/src/components/`, so they differ from any fixed key of smaller length. -/
theorem expandedLoop_miss (uf : List (String × String)) (k : String)
    (hk : k.length < 16) :
    jsGet (getExpandedProjectFiles uf) k
      = jsGet [ ("/package.json", pkgJsonStr),
          ("/vite.config.js", viteConfigStr),
          ("/index.html", indexHtmlStr),
          ("/tailwind.config.js", tailwindCfgExpandedStr),
          ("/src/main.jsx", mainJsxStr),
          ("/src/index.css", indexCssExpanded
            (jsOrS (jsGet uf "/styles.css") (jsOrS (jsGet uf "/App.css") ""))),
          ("/src/App.jsx", fixImports (jsOrS (jsGet uf "/App.js") "")) ] k := by
  simp only [getExpandedProjectFiles]
  apply compLoop_skip (fun s => "/src/components/" ++ componentKey s) fixImports
  intro e _ _ habs
  have hlen := congrArg String.length habs
  rw [String.length_append] at hlen
  have h16 : ("/src/components/" : String).length = 16 := rfl
  rw [h16] at hlen
  omega

/-- C6, counterexample: with no `/App.js` in the input, the expansion
`getExpandedProjectFiles` returns an EMPTY App entry (`/src/App.jsx` maps to
`""`), not the built-in non-empty placeholder component. -/
theorem C6_counterexample :
    jsGet (getExpandedProjectFiles []) "/src/App.jsx" = some ""
    ∧ placeholderApp ≠ "" := by
  constructor
  · rfl
  · decide

/-- C6 (amended): when `/App.js` is absent, `createProjectFiles` (the tree
actually mounted in the sandbox) falls back to the built-in non-empty
placeholder component for the App entry, while `getExpandedProjectFiles`
falls back to the empty string. -/
theorem C6_amended (uf : List (String × String)) (h : jsGet uf "/App.js" = none) :
    treeGetFile (createProjectFiles uf) ["src", "App.jsx"]
      = some (fixImports placeholderApp)
    ∧ fixImports placeholderApp ≠ ""
    ∧ jsGet (getExpandedProjectFiles uf) "/src/App.jsx" = some "" := by
  refine ⟨?_, by decide, ?_⟩
  · have hor : jsOrS none placeholderApp = placeholderApp := rfl
    rw [create_app_entry, h, hor]
  · have hmiss := expandedLoop_miss uf "/src/App.jsx" (by decide)
    rw [hmiss, h]
    rfl

/-- C6, witness for the amended theorem at the empty input. -/
theorem C6_witness :
    treeGetFile (createProjectFiles []) ["src", "App.jsx"]
      = some (fixImports placeholderApp)
    ∧ fixImports placeholderApp ≠ ""
    ∧ jsGet (getExpandedProjectFiles []) "/src/App.jsx" = some "" :=
  C6_amended [] rfl

/-- C10: when the input contains both `/styles.css` and `/App.css` with
non-empty content, both expansion functions build `src/index.css` from the
`/styles.css` content; the `/App.css` content does not appear (the `||`
fallback chain gives `/styles.css` precedence). -/
theorem C10_theorem (uf : List (String × String)) (s a : String)
    (hs : jsGet uf "/styles.css" = some s) (hsne : s ≠ "")
    (ha : jsGet uf "/App.css" = some a) (hane : a ≠ "") :
    treeGetFile (createProjectFiles uf) ["src", "index.css"]
      = some (indexCssCreate s)
    ∧ jsGet (getExpandedProjectFiles uf) "/src/index.css"
      = some (indexCssExpanded s) := by
  constructor
  · rw [create_index_css_entry, hs]
    simp [jsOrS, hsne]
  · have hmiss := expandedLoop_miss uf "/src/index.css" (by decide)
    rw [hmiss, hs]
    simp [jsGet, jsOrS, hsne]

/-- C10, witness at a concrete input with both CSS files present. -/
theorem C10_witness :
    treeGetFile (createProjectFiles [("/styles.css", "S"), ("/App.css", "A")])
      ["src", "index.css"] = some (indexCssCreate "S")
    ∧ jsGet (getExpandedProjectFiles [("/styles.css", "S"), ("/App.css", "A")])
        "/src/index.css" = some (indexCssExpanded "S") :=
  C10_theorem [("/styles.css", "S"), ("/App.css", "A")] "S" "A"
    (by decide) (by decide) (by decide) (by decide)

/-! ## PromptComposer (`lib/prompts`) -/

/-- Context passed to the prompt builders (`PromptContext`); only the
`isFollowUp` flag is consulted by the code (`context.isFollowUp || false`,
so the boolean is taken directly). -/
structure PromptContext where
  isFollowUp : Bool := false

/-- `AGENT_ROLE` prompt component. -/
def AGENT_ROLE : String :=
  "You are BuilderAI, a highly skilled frontend developer specializing in React applications. You have extensive knowledge in:\n- React (functional components, hooks, state management)\n- Modern CSS (Tailwind CSS, CSS-in-JS, animations)\n- JavaScript/JSX best practices\n- Responsive design and UI/UX principles\n- Component architecture and reusable patterns\n\nCRITICAL: You MUST use the JSON function calling interface to call tools. Do NOT output XML tags like <function> or <writeFile>. The system will automatically detect and execute your function calls when you use the proper interface."

/-- `formatToolsSection()` of the prompt builder (a constant string). -/
def formatToolsSection : String :=
  "AVAILABLE FUNCTIONS\n\nYou have access to these functions via the function calling interface:\n\n1. writeFile(path, content, description)\n   - path: File path like \"/App.js\" or \"/components/Header.js\"\n   - content: Complete file code (never truncate)\n   - description: Brief description of the file\n\n2. showPreview(message)\n   - message: Summary of what was built\n   - MUST be called after all writeFile calls\n\nCRITICAL FORMAT RULES:\n- Use the native function calling interface (JSON tool calls)\n- NEVER output XML like <function> or <writeFile> tags\n- NEVER write function calls as plain text\n- The system handles function execution automatically"

/-- `RULES` prompt component. -/
def RULES : String :=
  "CRITICAL RULES\n\n1. For ANY code request, you MUST use the writeFile function - never output code as text\n2. ALWAYS call showPreview after creating files\n3. Write COMPLETE file contents - never truncate or use \"...\" or \"// rest of code\"\n4. Do NOT output raw JSON or XML - use the function calling interface\n5. Be direct - no \"Great!\", \"Sure!\", \"Certainly!\" - just build\n\nCODE QUALITY:\n- All imports must be correct\n- Component names must match file names\n- Include all necessary code - no placeholders\n- Prefer Tailwind CSS classes for styling\n- If you import a CSS file, you MUST also create that CSS file with writeFile\n\nWHEN TO USE TOOLS:\n- \"Create...\", \"Build...\", \"Make...\" → Use writeFile + showPreview\n- \"Add...\", \"Update...\", \"Change...\" → Use writeFile + showPreview\n\nWHEN NOT TO USE TOOLS:\n- \"What is...\", \"How do...\", \"Explain...\" → Just respond with text"

/-- `CODE_GUIDELINES` prompt component. -/
def CODE_GUIDELINES : String :=
  "CODE GUIDELINES\n\n## File Structure\n- /App.js - Main application component (entry point, required)\n- /components/ComponentName.js - Reusable components\n- /App.css - Custom CSS styles (when Tailwind isn\x27t sufficient)\n\n## React Patterns\n- Use functional components with hooks (useState, useEffect, useRef, useCallback, useMemo)\n- Export components as default: `export default function ComponentName() \x7b\x7d`\n- Use descriptive component and variable names\n- Keep components focused and single-purpose\n\n## Imports\n- Hooks: `import \x7b useState, useEffect \x7d from \x27react\x27;`\n- Components: `import ComponentName from \x27./components/ComponentName\x27;`\n- CSS: If importing CSS, you MUST create that CSS file too\n\n## Styling\n- Primary: Use Tailwind CSS utility classes for most styling\n- Custom CSS: Use separate CSS files for complex animations, keyframes, or styles Tailwind can\x27t handle\n- If you import a CSS file (e.g., `import \x27./Button.css\x27`), you MUST also create /components/Button.css\n- Responsive: Use Tailwind\x27s responsive prefixes (sm:, md:, lg:, xl:)\n- Dark mode: Use dark: prefix when implementing dark themes\n\n## Data & Content\n- Include realistic, contextually appropriate mock data\n- Use meaningful placeholder text (not lorem ipsum for user-facing content)\n- Structure data in a way that could easily connect to a real API\n\n## Images\n- Placeholder images: `https://picsum.photos/seed/\x7bdescriptive-seed\x7d/\x7bwidth\x7d/\x7bheight\x7d`\n- Avatar images: `https://ui-avatars.com/api/?name=\x7bName\x7d&background=random`\n- Icons: Use inline SVGs or describe the icon needed\n- If user specifies a particular image source (Unsplash, specific URLs), use their preference\n\n## Best Practices\n- Write clean, readable code with proper indentation\n- Use semantic HTML elements (header, main, nav, section, article, footer)\n- Ensure accessibility (alt text, ARIA labels, semantic structure)\n- Handle edge cases (empty states, loading states, error states)"

/-- `getWorkflowSection(context)` prompt component. -/
def getWorkflowSection (context : PromptContext) : String :=
  if context.isFollowUp then
    "WORKFLOW (Follow-up Request)\n\n1. ANALYZE the user\x27s request and identify which files need changes\n2. MODIFY only the files that need updates using writeFile\n3. PRESERVE existing functionality unless explicitly asked to change it\n4. CALL showPreview after all changes are complete\n\nImportant: For follow-up requests, only update files that need changes. Don\x27t rewrite files that don\x27t need modifications."
  else
    "WORKFLOW (New Project)\n\n1. ANALYZE the user\x27s request to understand what they want to build\n2. PLAN the component structure (what components are needed, how they relate)\n3. CREATE files using writeFile, starting with App.js\n4. BUILD additional components as separate files in /components/\n5. ADD custom CSS in /App.css if needed for animations or complex styles\n6. CALL showPreview with a summary of what was built\n\nAlways create files one at a time so the user can see progress. Start with the main App.js, then create supporting components."

/-- `buildSystemPrompt(context)`: the full prompt, sections joined by blank
lines. -/
def buildSystemPrompt (context : PromptContext) : String :=
  String.intercalate "\n\n"
    [AGENT_ROLE, formatToolsSection, RULES, CODE_GUIDELINES, getWorkflowSection context]

/-- `buildCompactSystemPrompt(context)`: the short prompt for small models. -/
def buildCompactSystemPrompt (context : PromptContext) : String :=
  "You are BuilderAI, a React developer that builds web applications.\n\nTOOLS:\n1. writeFile(path, content, description) - Create/update files. Paths: /App.js, /components/Name.js, /App.css\n2. showPreview(message) - MUST call after writing all files\n\nRULES:\n- Prefer Tailwind CSS classes for styling\n- If you import a CSS file, create it too with writeFile\n- Functional components with hooks\n- Export default from each file\n- Plain JavaScript (not TypeScript)\n- ALWAYS use writeFile for code, ALWAYS call showPreview at the end\n- For questions, respond with text only (no tools)\n\nWORKFLOW:\n"
    ++ (if context.isFollowUp then
          "1. Update only files that need changes\n2. Call showPreview"
        else
          "1. Create /App.js first\n2. Create components in /components/\n3. Add CSS files if needed\n4. Call showPreview")
    ++ "\n\nImages: https://picsum.photos/seed/\x7bid\x7d/\x7bwidth\x7d/\x7bheight\x7d or user\x27s preferred source"

/-- The configured list of small-model identifiers. -/
def smallModels : List String :=
  ["llama-3.1-8b-instant", "llama-3.2-3b", "gemma-7b"]

/-- `getSystemPrompt(model, context)`: compact prompt when the model id
contains one of the small-model substrings, full prompt otherwise. -/
def getSystemPrompt (model : String) (context : PromptContext) : String :=
  if smallModels.any (fun m => strContainsB model m) then
    buildCompactSystemPrompt context
  else
    buildSystemPrompt context

/-! ## Claim C8 — no literal tool-call markup in the prompt -/

/-- C8, counterexample: for the default (non-small) model the composed system
prompt DOES contain the literal substring `<writeFile>` (it occurs in the
instructions that forbid emitting XML tool markup, both in `AGENT_ROLE` and in
the tools section). -/
theorem C8_counterexample :
    strContainsB (getSystemPrompt "llama-3.3-70b-versatile" ⟨false⟩) "<writeFile>" = true := by
  decide

/-- C8 (amended): for every model id matching the configured small-model list
and every context, the composed (compact) system prompt contains neither the
substring `<writeFile>` nor `<showPreview>`; the full prompt for other models
does contain `<writeFile>`, inside an instruction forbidding such markup. -/
theorem C8_amended (model : String) (ctx : PromptContext)
    (h : smallModels.any (fun m => strContainsB model m) = true) :
    strContainsB (getSystemPrompt model ctx) "<writeFile>" = false
    ∧ strContainsB (getSystemPrompt model ctx) "<showPreview>" = false := by
  have hg : getSystemPrompt model ctx = buildCompactSystemPrompt ctx := by
    simp [getSystemPrompt, h]
  rw [hg]
  obtain ⟨fu⟩ := ctx
  cases fu <;> exact ⟨by decide, by decide⟩

/-- C8, witness: the amended theorem applied to a configured small model. -/
theorem C8_witness :
    strContainsB (getSystemPrompt "llama-3.1-8b-instant" ⟨false⟩) "<writeFile>" = false
    ∧ strContainsB (getSystemPrompt "llama-3.1-8b-instant" ⟨false⟩) "<showPreview>" = false :=
  C8_amended "llama-3.1-8b-instant" ⟨false⟩ (by decide)

/-! ## A model of `JSON.parse`

`parseToolArguments` and the non-streaming route both lean on `JSON.parse`.
The model below implements the JSON grammar: values are objects, arrays,
strings (with the standard escapes; a raw control character inside a string
is a parse error, exactly the failure mode the newline-fixing layers exist
for), numbers (kept as their lexeme — no claim interprets them), booleans and
null.  Trailing non-whitespace after the top-level value is a parse error.
Duplicate object keys follow JavaScript semantics via `jsSet` (first position,
last value).  `\uXXXX` escapes outside the valid `Char` range collapse to the
default character; no claim exercises them. -/

inductive JVal : Type where
  | jnull
  | jbool (b : Bool)
  | jnum (lexeme : String)
  | jstr (s : String)
  | jarr (xs : List JVal)
  | jobj (fields : List (String × JVal))

/-- JSON whitespace. -/
def jsonWsChar (c : Char) : Bool :=
  c = ' ' || c = '\t' || c = '\n' || c = '\r'

/-- Skip JSON whitespace. -/
def skipWs : List Char → List Char
  | [] => []
  | c :: cs => if jsonWsChar c then skipWs cs else c :: cs

/-- Hex digit value. -/
def hexVal (c : Char) : Option Nat :=
  if c.isDigit then some (c.toNat - 48)
  else if 'a' ≤ c && c ≤ 'f' then some (c.toNat - 87)
  else if 'A' ≤ c && c ≤ 'F' then some (c.toNat - 55)
  else none

/-- Parse the body of a JSON string (the opening quote already consumed). -/
def parseJStr (acc : List Char) : List Char → Option (String × List Char)
  | [] => none
  | c :: cs =>
    if c = dq then some (String.mk acc.reverse, cs)
    else if c = '\\' then
      match cs with
      | [] => none
      | e :: cs' =>
        if e = dq then parseJStr (dq :: acc) cs'
        else if e = '\\' then parseJStr ('\\' :: acc) cs'
        else if e = '/' then parseJStr ('/' :: acc) cs'
        else if e = 'b' then parseJStr (Char.ofNat 8 :: acc) cs'
        else if e = 'f' then parseJStr (Char.ofNat 12 :: acc) cs'
        else if e = 'n' then parseJStr ('\n' :: acc) cs'
        else if e = 'r' then parseJStr ('\r' :: acc) cs'
        else if e = 't' then parseJStr ('\t' :: acc) cs'
        else if e = 'u' then
          match cs' with
          | h1 :: h2 :: h3 :: h4 :: cs'' =>
            match hexVal h1, hexVal h2, hexVal h3, hexVal h4 with
            | some a, some b, some c2, some d =>
              parseJStr (Char.ofNat (((a * 16 + b) * 16 + c2) * 16 + d) :: acc) cs''
            | _, _, _, _ => none
          | _ => none
        else none
    else if c.toNat < 32 then none
    else parseJStr (c :: acc) cs

/-- Parse a nonempty digit run. -/
def eatDigits1 (cs : List Char) : Option (List Char × List Char) :=
  match cs with
  | [] => none
  | c :: cs' =>
    if c.isDigit then
      let rec go : List Char → List Char × List Char
        | [] => ([], [])
        | d :: ds => if d.isDigit then let (w, r) := go ds; (d :: w, r) else ([], d :: ds)
      let (w, r) := go cs'
      some (c :: w, r)
    else none

/-- Parse a JSON number, returning its lexeme. -/
def parseJNum (cs : List Char) : Option (String × List Char) := do
  let (negPart, r1) :=
    match cs with
    | c :: r => if c = '-' then ([c], r) else ([], cs)
    | [] => ([], cs)
  let (intPart, r2) ←
    match r1 with
    | c :: r =>
      if c = '0' then some ([c], r)
      else if c.isDigit then
        match eatDigits1 r1 with
        | some (w, rr) => some (w, rr)
        | none => none
      else none
    | [] => none
  let (fracPart, r3) :=
    match r2 with
    | c :: r =>
      if c = '.' then
        match eatDigits1 r with
        | some (w, rr) => (c :: w, rr)
        | none => ([], r2)
      else ([], r2)
    | [] => ([], r2)
  -- a lone '.' with no digits is a parse error in JSON
  if fracPart = [] && (match r2 with | c :: _ => c = '.' | [] => false) then none else
  let (expPart, r4) :=
    match r3 with
    | c :: r =>
      if c = 'e' || c = 'E' then
        match r with
        | s :: r' =>
          if s = '+' || s = '-' then
            match eatDigits1 r' with
            | some (w, rr) => (c :: s :: w, rr)
            | none => ([], r3)
          else
            match eatDigits1 r with
            | some (w, rr) => (c :: w, rr)
            | none => ([], r3)
        | [] => ([], r3)
      else ([], r3)
    | [] => ([], r3)
  if expPart = [] && (match r3 with | c :: _ => c = 'e' || c = 'E' | [] => false) then none else
  some (String.mk (negPart ++ intPart ++ fracPart ++ expPart), r4)

mutual

/-- Parse a JSON value (leading whitespace allowed). -/
def parseVal : Nat → List Char → Option (JVal × List Char)
  | 0, _ => none
  | fuel + 1, cs =>
    match skipWs cs with
    | [] => none
    | c :: cs' =>
      if c = dq then
        match parseJStr [] cs' with
        | some (s, r) => some (.jstr s, r)
        | none => none
      else if c = Char.ofNat 123 then
        match skipWs cs' with
        | c2 :: r2 =>
          if c2 = Char.ofNat 125 then some (.jobj [], r2)
          else parseObjMembers fuel (c2 :: r2) []
        | [] => none
      else if c = '[' then
        match skipWs cs' with
        | ']' :: r2 => some (.jarr [], r2)
        | r2 => parseArrItems fuel r2 []
      else if c = 't' then
        match eatLit "rue".data cs' with
        | some r => some (.jbool true, r)
        | none => none
      else if c = 'f' then
        match eatLit "alse".data cs' with
        | some r => some (.jbool false, r)
        | none => none
      else if c = 'n' then
        match eatLit "ull".data cs' with
        | some r => some (.jnull, r)
        | none => none
      else
        match parseJNum (c :: cs') with
        | some (lex, r) => some (.jnum lex, r)
        | none => none

/-- Parse the members of a JSON object (after `{`, first member pending). -/
def parseObjMembers : Nat → List Char → List (String × JVal) → Option (JVal × List Char)
  | 0, _, _ => none
  | fuel + 1, cs, acc =>
    match skipWs cs with
    | c :: r =>
      if c = dq then
        match parseJStr [] r with
        | some (k, r2) =>
          match skipWs r2 with
          | ':' :: r4 =>
            match parseVal fuel r4 with
            | some (v, r5) =>
              let acc' := jsSet acc k v
              match skipWs r5 with
              | ',' :: r7 => parseObjMembers fuel r7 acc'
              | c2 :: r7 =>
                if c2 = Char.ofNat 125 then some (.jobj acc', r7) else none
              | [] => none
            | none => none
          | _ => none
        | none => none
      else none
    | [] => none

/-- Parse the items of a JSON array (after `[`, first item pending). -/
def parseArrItems : Nat → List Char → List JVal → Option (JVal × List Char)
  | 0, _, _ => none
  | fuel + 1, cs, acc =>
    match parseVal fuel cs with
    | some (v, r) =>
      match skipWs r with
      | ',' :: r2 => parseArrItems fuel r2 (acc ++ [v])
      | ']' :: r2 => some (.jarr (acc ++ [v]), r2)
      | _ => none
    | none => none

end

/-- `JSON.parse`: parse one value and require only whitespace afterwards. -/
def jsonParse (s : String) : Option JVal :=
  match parseVal (s.data.length + 1) s.data with
  | some (v, rest) => if skipWs rest = [] then some v else none
  | none => none

/-- Read a string field of a parsed JSON object (`args.field as string`,
yielding `none` when the field is absent or not a string). -/
def jGetStr (v : JVal) (k : String) : Option String :=
  match v with
  | .jobj fs =>
    match jsGet fs k with
    | some (.jstr s) => some s
    | _ => none
  | _ => none

/-! ## ToolCallRecoveryParser (`parseToolArguments` of `generate-stream/route.ts`) -/

/-- Take the maximal run of non-quote characters (`[^"]*`, greedy). -/
def takeNonQuote : List Char → List Char × List Char
  | [] => ([], [])
  | c :: cs =>
    if c = dq then ([], c :: cs)
    else
      let (w, r) := takeNonQuote cs
      (c :: w, r)

/-- Matcher for `/"key"\s*:\s*"([^"]+)"/` at the current position,
returning the captured (nonempty) value. -/
def tryKeyQuoted (key : List Char) (cs : List Char) : Option String := do
  let r1 ← eatLit (dq :: (key ++ [dq])) cs
  let (_, r2) := eatWsStar r1
  match r2 with
  | ':' :: r3 =>
    let (_, r4) := eatWsStar r3
    match r4 with
    | c :: r5 =>
      if c = dq then
        let (w, r6) := takeNonQuote r5
        if w = [] then none
        else
          match r6 with
          | q :: _ => if q = dq then some (String.mk w) else none
          | [] => none
      else none
    | [] => none
  | _ => none

/-- First match of `/"key"\s*:\s*"([^"]+)"/` in the input
(`args.match(...)`, capture group 1). -/
def findKeyQuoted (key : List Char) : List Char → Option String
  | [] => none
  | c :: cs =>
    match tryKeyQuoted key (c :: cs) with
    | some s => some s
    | none => findKeyQuoted key cs

/-- `args.indexOf(pat)` expressed as the suffix starting at the first
occurrence (`none` when absent). -/
def findSub (ps : List Char) : List Char → Option (List Char)
  | [] => if (eatLit ps []).isSome then some [] else none
  | c :: cs =>
    if (eatLit ps (c :: cs)).isSome then some (c :: cs) else findSub ps cs

/-- Index of the first occurrence of a character. -/
def idxOf (c : Char) : List Char → Option Nat
  | [] => none
  | x :: xs => if x = c then some 0 else (idxOf c xs).map (· + 1)

/-- `l.indexOf(c, start)`: first occurrence at index ≥ `start`. -/
def idxOfFrom (c : Char) (l : List Char) (start : Nat) : Option Nat :=
  (idxOf c (l.drop start)).map (· + start)

/-- The value-end scan of `parseToolArguments`: find the first unescaped
double quote, tracking the `escaped` flag exactly as the `for` loop does. -/
def findCloseQuote : List Char → Nat → Bool → Option Nat
  | [], _, _ => none
  | c :: cs, i, esc =>
    if esc then findCloseQuote cs (i + 1) false
    else if c = '\\' then findCloseQuote cs (i + 1) true
    else if c = dq then some i
    else findCloseQuote cs (i + 1) false

/-- Global replace of a two-character sequence by one character
(`.replace(/\\n/g, "\n")` and friends). -/
def replacePair (x y z : Char) : List Char → List Char
  | [] => []
  | [c] => [c]
  | c1 :: c2 :: cs =>
    if c1 = x && c2 = y then z :: replacePair x y z cs
    else c1 :: replacePair x y z (c2 :: cs)

/-- The newline-escaping first-aid of `parseToolArguments`:
`.replace(/\n/g, "\\n").replace(/\r/g, "\\r").replace(/\t/g, "\\t")`.
The three passes are disjoint (no pass produces input for a later one), so a
single expansion pass is equivalent. -/
def escControl : List Char → List Char
  | [] => []
  | c :: cs =>
    (if c = '\n' then ['\\', 'n']
     else if c = '\r' then ['\\', 'r']
     else if c = '\t' then ['\\', 't']
     else [c]) ++ escControl cs

/-- The manual-extraction fallback of `parseToolArguments`: regex matches for
`path` and `description`, `indexOf('"content"')`, then the hand-rolled scan
for the content value.  When no double quote follows the colon,
`indexOf('"', colonPos)` is `-1` and `valueStart` becomes `0`
(`-1 + 1`), so the scan starts at the `"` of `"content"` itself and the
extracted content is empty — the function still returns an object. -/
def manualExtract (args : String) : Option JVal :=
  let pathM := findKeyQuoted "path".data args.data
  let descM := findKeyQuoted "description".data args.data
  match findSub "\"content\"".data args.data, pathM with
  | some ac, some p =>
    match idxOf ':' ac with
    | none => none
    | some ci =>
      let valueStart :=
        match idxOfFrom dq ac ci with
        | some qi => qi + 1
        | none => 0
      let valueEnd :=
        match findCloseQuote (ac.drop valueStart) valueStart false with
        | some ve => ve
        | none => valueStart
      let raw := (ac.drop valueStart).take (valueEnd - valueStart)
      let content :=
        String.mk (replacePair '\\' 't' '\t' (replacePair '\\' dq dq
          (replacePair '\\' 'n' '\n' raw)))
      some (JVal.jobj
        ([("path", JVal.jstr p), ("content", JVal.jstr content)]
          ++ (match descM with
              | some d => [("description", JVal.jstr d)]
              | none => [])))
  | _, _ => none

/-- `parseToolArguments`: `JSON.parse`, then `JSON.parse` after escaping raw
newlines/CR/tabs, then the manual extraction; `none` models `null`. -/
def parseToolArguments (args : String) : Option JVal :=
  match jsonParse args with
  | some v => some v
  | none =>
    match jsonParse (String.mk (escControl args.data)) with
    | some v => some v
    | none => manualExtract args

/-- Modelled from the spec wording of C4 (for comparison only): the string
contains a `"path": "..."` field and the substring `"content"` followed by a
colon and a quoted value. -/
def specC4Cond (args : String) : Bool :=
  (findKeyQuoted "path".data args.data).isSome &&
  (match findSub "\"content\"".data args.data with
   | some ac =>
     match idxOf ':' ac with
     | some ci => (idxOfFrom dq ac ci).isSome
     | none => false
   | none => false)

/-! ## Claim C4 — contract of the argument parser -/

/-- C4, counterexample: on `{"path": "x", "content": }` both `JSON.parse`
attempts fail and no quoted value follows the `"content"` colon, yet
`parseToolArguments` returns an object (with empty content) instead of the
`null` the claim requires. -/
theorem C4_counterexample :
    (jsonParse "\x7b\"path\": \"x\", \"content\": \x7d").isNone = true
    ∧ (jsonParse (String.mk (escControl "\x7b\"path\": \"x\", \"content\": \x7d".data))).isNone = true
    ∧ (parseToolArguments "\x7b\"path\": \"x\", \"content\": \x7d").isSome = true
    ∧ specC4Cond "\x7b\"path\": \"x\", \"content\": \x7d" = false := by
  refine ⟨by decide, by decide, by decide, by decide⟩

/-- C4 (amended): the parser is total; when both `JSON.parse` attempts fail it
returns an object iff the string contains a `"path": "..."` field AND the
substring `"content"` AND a colon somewhere after that substring — a quoted
value after the colon is NOT required (without one the content field is
extracted as the empty string). -/
theorem C4_amended (args : String)
    (h1 : (jsonParse args).isNone = true)
    (h2 : (jsonParse (String.mk (escControl args.data))).isNone = true) :
    (parseToolArguments args).isSome = true
      ↔ ((findKeyQuoted "path".data args.data).isSome = true
          ∧ ∃ ac, findSub "\"content\"".data args.data = some ac
              ∧ (idxOf ':' ac).isSome = true) := by
  rw [Option.isNone_iff_eq_none] at h1 h2
  unfold parseToolArguments
  rw [h1, h2]
  unfold manualExtract
  cases hf : findSub "\"content\"".data args.data with
  | none =>
    simp only [hf]
    cases hp : findKeyQuoted "path".data args.data <;> simp [hp]
  | some ac =>
    cases hp : findKeyQuoted "path".data args.data with
    | none => simp [hf, hp]
    | some p =>
      cases hi : idxOf ':' ac with
      | none => simp [hf, hp, hi]
      | some ci =>
        simp only [hf, hp, hi]
        constructor
        · intro _
          exact ⟨rfl, ac, rfl, by simp [hi]⟩
        · intro _
          rfl

/-- C4, witness: the amended theorem at a concrete malformed input where both
parses fail and the extraction condition holds. -/
theorem C4_witness :
    (jsonParse "\"path\": \"p\" \"content\": \"c\"").isNone = true
    ∧ (jsonParse (String.mk (escControl "\"path\": \"p\" \"content\": \"c\"".data))).isNone = true
    ∧ ((parseToolArguments "\"path\": \"p\" \"content\": \"c\"").isSome = true
        ↔ ((findKeyQuoted "path".data "\"path\": \"p\" \"content\": \"c\"".data).isSome = true
            ∧ ∃ ac, findSub "\"content\"".data "\"path\": \"p\" \"content\": \"c\"".data = some ac
                ∧ (idxOf ':' ac).isSome = true)) :=
  ⟨by decide, by decide,
    C4_amended "\"path\": \"p\" \"content\": \"c\"" (by decide) (by decide)⟩

/-! ## CodeSanitizer (`sanitizeCode` of `generate-stream/route.ts`)

Each regex replace of the source is one scanner below, applied in the same
order.  Anchored (`^...m`) rules use `scanReplaceM`, which attempts a match
only at the start of the input or right after a line break (JavaScript
multiline `^` matches after `\n` and `\r`); every anchored match here ends in
`(` or `{`, so scanning resumes in non-line-start state after a match. -/

/-- The opening-brace character. -/
def lcurly : Char := Char.ofNat 123

/-- Line-break characters after which multiline `^` matches. -/
def isLineBreak (c : Char) : Bool :=
  c = '\n' || c = '\r'

/-- Global replace for a `^`-anchored multiline regex. -/
def scanReplaceM (try1 : List Char → Option (List Char × List Char)) :
    Nat → Bool → List Char → List Char
  | 0, _, cs => cs
  | _ + 1, _, [] => []
  | fuel + 1, atStart, c :: cs =>
    if atStart then
      match try1 (c :: cs) with
      | some (repl, rest) => repl ++ scanReplaceM try1 fuel false rest
      | none => c :: scanReplaceM try1 fuel (isLineBreak c) cs
    else c :: scanReplaceM try1 fuel (isLineBreak c) cs

/-- Run an anchored global replace on a string. -/
def runReplaceM (try1 : List Char → Option (List Char × List Char)) (s : String) : String :=
  String.mk (scanReplaceM try1 (s.data.length + 1) true s.data)

/-- Expect one specific character and return the rest. -/
def expectChar (c : Char) : List Char → Option (List Char)
  | x :: xs => if x = c then some xs else none
  | [] => none

/-- Matcher for `^default\s+(\w+)\s*\(` with replacement `function $1(`. -/
def tryDefaultFn (cs : List Char) : Option (List Char × List Char) :=
  (eatLit "default".data cs).bind fun r1 =>
  (eatWsPlus r1).bind fun p2 =>
  (eatWordPlus p2.2).bind fun p3 =>
  (expectChar '(' (eatWsStar p3.2).2).bind fun r5 =>
  some ("function ".data ++ p3.1 ++ ['('], r5)

/-- Matcher for `^export\s+default\s+(\w+)\s*\(` with replacement
`export default function $1(`. -/
def tryExportDefaultFn (cs : List Char) : Option (List Char × List Char) :=
  (eatLit "export".data cs).bind fun r1 =>
  (eatWsPlus r1).bind fun p2 =>
  (eatLit "default".data p2.2).bind fun r3 =>
  (eatWsPlus r3).bind fun p4 =>
  (eatWordPlus p4.2).bind fun p5 =>
  (expectChar '(' (eatWsStar p5.2).2).bind fun r7 =>
  some ("export default function ".data ++ p5.1 ++ ['('], r7)

/-- Matcher for `\nexport\s+default\s+(\w+)\s*\(` with replacement
`\nexport default function $1(`. -/
def tryNlExportDefaultFn (cs : List Char) : Option (List Char × List Char) :=
  (expectChar '\n' cs).bind fun r =>
  (tryExportDefaultFn r).map fun p => ('\n' :: p.1, p.2)

/-- Matcher for `\ndefault\s+(\w+)\s*\(` with replacement `\nfunction $1(`. -/
def tryNlDefaultFn (cs : List Char) : Option (List Char × List Char) :=
  (expectChar '\n' cs).bind fun r =>
  (tryDefaultFn r).map fun p => ('\n' :: p.1, p.2)

/-- The continuation `close \s* >` of the lazy-content quote-fix patterns:
on success returns the rest after `>`. -/
def contTail (close : Char) (c : Char) (cs : List Char) : Option (List Char) :=
  if c = close then
    match (eatWsStar cs).2 with
    | '>' :: r2 => some r2
    | _ => none
  else none

/-- Lazy content scan `([^excl]*?)` followed by `close\s*>`: at each position
the continuation is tried first (lazy semantics); otherwise the character —
which may not be `excl` — joins the content. -/
def lazyContentTo (excl close : Char) : List Char → Option (List Char × List Char)
  | [] => none
  | c :: cs =>
    match contTail close c cs with
    | some r2 => some ([], r2)
    | none =>
      if c = excl then none
      else (lazyContentTo excl close cs).map fun p => (c :: p.1, p.2)

/-- Matcher for `className=<openQ>([^openQ]*?)<closeQ>\s*>` with replacement
`className="$1">` (rules for `className='..."` and `className="...'`). -/
def tryClassNameFix (openQ closeQ : Char) (cs : List Char) : Option (List Char × List Char) :=
  (eatLit "className=".data cs).bind fun r1 =>
  (expectChar openQ r1).bind fun r2 =>
  (lazyContentTo openQ closeQ r2).bind fun p =>
  some ("className=".data ++ [dq] ++ p.1 ++ [dq, '>'], p.2)

/-- Matcher for `(\w+)=<openQ>([^openQ]*?)<closeQ>\s*>` with replacement
`$1="$2">` (the generic mismatched-attribute rules). -/
def tryAttrFix (openQ closeQ : Char) (cs : List Char) : Option (List Char × List Char) :=
  (eatWordPlus cs).bind fun pn =>
  (expectChar '=' pn.2).bind fun r1 =>
  (expectChar openQ r1).bind fun r2 =>
  (lazyContentTo openQ closeQ r2).bind fun p =>
  some (pn.1 ++ ('=' :: dq :: p.1) ++ [dq, '>'], p.2)

/-- Take the maximal run of characters different from `stop`. -/
def takeWhileNot (stop : Char) : List Char → List Char × List Char
  | [] => ([], [])
  | c :: cs =>
    if c = stop then ([], c :: cs)
    else
      let (w, r) := takeWhileNot stop cs
      (c :: w, r)

/-- Matcher for `className='([^']*)'` (greedy) with replacement
`className="$1"`. -/
def tryClassNameSingle (cs : List Char) : Option (List Char × List Char) :=
  (eatLit "className=".data cs).bind fun r1 =>
  (expectChar sq r1).bind fun r2 =>
  (expectChar sq (takeWhileNot sq r2).2).bind fun r4 =>
  some ("className=".data ++ [dq] ++ (takeWhileNot sq r2).1 ++ [dq], r4)

/-- Matcher for `^(\s*)(\w+)\s*\(\)\s*\{` with the source's callback: insert
the `function` keyword when the name starts with an uppercase-stable character
and the matched text does not contain `function`; otherwise the match is
emitted unchanged (the scan still resumes after it). -/
def tryFnKeyword (cs : List Char) : Option (List Char × List Char) :=
  (eatWordPlus (eatWsStar cs).2).bind fun pn =>
  (eatLit "()".data (eatWsStar pn.2).2).bind fun r4 =>
  (expectChar lcurly (eatWsStar r4).2).bind fun r6 =>
  let ws0 := (eatWsStar cs).1
  let ws1 := (eatWsStar pn.2).1
  let ws2 := (eatWsStar r4).1
  let matchStr := ws0 ++ pn.1 ++ ws1 ++ ['(', ')'] ++ ws2 ++ [lcurly]
  let hd := pn.1.headD ' '
  if hd.toUpper = hd && !(strContainsAt "function".data matchStr) then
    some (ws0 ++ "function ".data ++ pn.1 ++ "() ".data ++ [lcurly], r6)
  else
    some (matchStr, r6)

/-- `sanitizeCode`: the ten regex replaces of the source, in order. -/
def sanitizeCode (code : String) : String :=
  let f1 := runReplaceM tryDefaultFn code
  let f2 := runReplaceM tryExportDefaultFn f1
  let f3 := runReplace tryNlExportDefaultFn f2
  let f4 := runReplace tryNlDefaultFn f3
  let f5 := runReplace (tryClassNameFix sq dq) f4
  let f6 := runReplace (tryClassNameFix dq sq) f5
  let f7 := runReplace (tryAttrFix sq dq) f6
  let f8 := runReplace (tryAttrFix dq sq) f7
  let f9 := runReplace tryClassNameSingle f8
  runReplaceM tryFnKeyword f9

/-! ## Claim C7 — sanitizer idempotence -/

theorem suffix_mem {x : Char} {l pre post : List Char} (h : l = pre ++ post)
    (hx : x ∈ post) : x ∈ l := by
  subst h; exact List.mem_append_right _ hx

theorem eatLit_append : ∀ (ps cs r : List Char), eatLit ps cs = some r → cs = ps ++ r := by
  intro ps
  induction ps with
  | nil =>
    intro cs r h
    simp [eatLit] at h
    simp [h]
  | cons p ps ih =>
    intro cs r h
    cases cs with
    | nil => simp [eatLit] at h
    | cons c cs' =>
      simp only [eatLit] at h
      split at h
      · next hc => rw [hc, ih cs' r h]; rfl
      · cases h

theorem eatWsStar_append : ∀ (cs w r : List Char), eatWsStar cs = (w, r) → cs = w ++ r := by
  intro cs
  induction cs with
  | nil =>
    intro w r h
    simp only [eatWsStar] at h
    cases h
    rfl
  | cons c cs ih =>
    intro w r h
    by_cases hws : isWsChar c = true
    · cases heq : eatWsStar cs with
      | mk w' r' =>
        simp only [eatWsStar, hws, if_true, heq] at h
        injection h with hw hr
        subst hw; subst hr
        have := ih w' r' heq
        simp [this]
    · simp only [eatWsStar, hws, if_false] at h
      cases h
      rfl

theorem eatWordStar_append : ∀ (cs w r : List Char), eatWordStar cs = (w, r) → cs = w ++ r := by
  intro cs
  induction cs with
  | nil =>
    intro w r h
    simp only [eatWordStar] at h
    cases h
    rfl
  | cons c cs ih =>
    intro w r h
    by_cases hws : isWordChar c = true
    · cases heq : eatWordStar cs with
      | mk w' r' =>
        simp only [eatWordStar, hws, if_true, heq] at h
        injection h with hw hr
        subst hw; subst hr
        have := ih w' r' heq
        simp [this]
    · simp only [eatWordStar, hws, if_false] at h
      cases h
      rfl

theorem eatWsPlus_append (cs : List Char) (w r : List Char)
    (h : eatWsPlus cs = some (w, r)) : cs = w ++ r := by
  cases cs with
  | nil => simp [eatWsPlus] at h
  | cons c cs' =>
    by_cases hws : isWsChar c = true
    · cases heq : eatWsStar cs' with
      | mk w' r' =>
        simp only [eatWsPlus, hws, if_true, heq] at h
        injection h with h'
        injection h' with hw hr
        subst hw; subst hr
        have := eatWsStar_append cs' w' r' heq
        simp [this]
    · simp [eatWsPlus, hws] at h

theorem eatWordPlus_append (cs : List Char) (w r : List Char)
    (h : eatWordPlus cs = some (w, r)) : cs = w ++ r := by
  cases cs with
  | nil => simp [eatWordPlus] at h
  | cons c cs' =>
    by_cases hws : isWordChar c = true
    · cases heq : eatWordStar cs' with
      | mk w' r' =>
        simp only [eatWordPlus, hws, if_true, heq] at h
        injection h with h'
        injection h' with hw hr
        subst hw; subst hr
        have := eatWordStar_append cs' w' r' heq
        simp [this]
    · simp [eatWordPlus, hws] at h

theorem expectChar_append (c : Char) (cs r : List Char) (h : expectChar c cs = some r) :
    cs = c :: r := by
  cases cs with
  | nil => simp [expectChar] at h
  | cons x xs =>
    by_cases hx : x = c
    · simp only [expectChar, hx, if_true] at h
      cases h
      rw [hx]
    · simp [expectChar, hx] at h

theorem lazyContentTo_close_mem (excl close : Char) :
    ∀ (cs : List Char) (p : List Char × List Char),
      lazyContentTo excl close cs = some p → close ∈ cs := by
  intro cs
  induction cs with
  | nil => intro p h; simp [lazyContentTo] at h
  | cons c cs ih =>
    intro p h
    simp only [lazyContentTo] at h
    cases hct : contTail close c cs with
    | some r2 =>
      have hc : c = close := by
        by_contra hcc
        simp [contTail, hcc] at hct
      rw [hc]
      exact List.mem_cons_self _ _
    | none =>
      rw [hct] at h
      by_cases hce : c = excl
      · rw [if_pos hce] at h; cases h
      · rw [if_neg hce, Option.map_eq_some'] at h
        obtain ⟨q, hq, -⟩ := h
        exact List.mem_cons_of_mem _ (ih q hq)

theorem tryDefaultFn_paren (cs : List Char) (out : List Char × List Char)
    (h : tryDefaultFn cs = some out) : '(' ∈ cs := by
  simp only [tryDefaultFn, Option.bind_eq_some] at h
  obtain ⟨r1, h1, ⟨w2, r2⟩, h2, ⟨w3, r3⟩, h3, r5, h5, -⟩ := h
  apply suffix_mem (eatLit_append _ _ _ h1)
  apply suffix_mem (eatWsPlus_append _ _ _ h2)
  apply suffix_mem (eatWordPlus_append _ _ _ h3)
  cases heq : eatWsStar r3 with
  | mk wz rz =>
    rw [heq] at h5
    have e : rz = '(' :: r5 := expectChar_append '(' rz r5 h5
    apply suffix_mem (eatWsStar_append r3 wz rz heq)
    rw [e]
    exact List.mem_cons_self _ _

theorem tryExportDefaultFn_paren (cs : List Char) (out : List Char × List Char)
    (h : tryExportDefaultFn cs = some out) : '(' ∈ cs := by
  simp only [tryExportDefaultFn, Option.bind_eq_some] at h
  obtain ⟨r1, h1, ⟨w2, r2⟩, h2, r3, h3, ⟨w4, r4⟩, h4, ⟨w5, r5⟩, h5, r7, h7, -⟩ := h
  apply suffix_mem (eatLit_append _ _ _ h1)
  apply suffix_mem (eatWsPlus_append _ _ _ h2)
  apply suffix_mem (eatLit_append _ _ _ h3)
  apply suffix_mem (eatWsPlus_append _ _ _ h4)
  apply suffix_mem (eatWordPlus_append _ _ _ h5)
  cases heq : eatWsStar r5 with
  | mk wz rz =>
    rw [heq] at h7
    have e : rz = '(' :: r7 := expectChar_append '(' rz r7 h7
    apply suffix_mem (eatWsStar_append r5 wz rz heq)
    rw [e]
    exact List.mem_cons_self _ _

theorem tryNlExportDefaultFn_paren (cs : List Char) (out : List Char × List Char)
    (h : tryNlExportDefaultFn cs = some out) : '(' ∈ cs := by
  simp only [tryNlExportDefaultFn, Option.bind_eq_some, Option.map_eq_some'] at h
  obtain ⟨r, hr, p, hp, -⟩ := h
  rw [expectChar_append _ _ _ hr]
  exact List.mem_cons_of_mem _ (tryExportDefaultFn_paren r p hp)

theorem tryNlDefaultFn_paren (cs : List Char) (out : List Char × List Char)
    (h : tryNlDefaultFn cs = some out) : '(' ∈ cs := by
  simp only [tryNlDefaultFn, Option.bind_eq_some, Option.map_eq_some'] at h
  obtain ⟨r, hr, p, hp, -⟩ := h
  rw [expectChar_append _ _ _ hr]
  exact List.mem_cons_of_mem _ (tryDefaultFn_paren r p hp)

theorem tryFnKeyword_paren (cs : List Char) (out : List Char × List Char)
    (h : tryFnKeyword cs = some out) : '(' ∈ cs := by
  simp only [tryFnKeyword, Option.bind_eq_some] at h
  obtain ⟨⟨wn, r2⟩, h1, r4, h2, r6, h3, -⟩ := h
  cases heq0 : eatWsStar cs with
  | mk w0 r0 =>
    rw [heq0] at h1
    have e1 : r0 = wn ++ r2 := eatWordPlus_append r0 wn r2 h1
    apply suffix_mem (eatWsStar_append cs w0 r0 heq0)
    apply suffix_mem e1
    cases heq1 : eatWsStar r2 with
    | mk w1 r1' =>
      rw [heq1] at h2
      have e2 : r1' = "()".data ++ r4 := eatLit_append "()".data r1' r4 h2
      apply suffix_mem (eatWsStar_append r2 w1 r1' heq1)
      rw [e2]
      exact List.mem_append_left _ (by decide)

theorem tryClassNameFix_quotes (openQ closeQ : Char) (cs : List Char)
    (out : List Char × List Char) (h : tryClassNameFix openQ closeQ cs = some out) :
    openQ ∈ cs ∧ closeQ ∈ cs := by
  simp only [tryClassNameFix, Option.bind_eq_some] at h
  obtain ⟨r1, h1, r2, h2, p, h3, -⟩ := h
  have e2 : r1 = openQ :: r2 := expectChar_append _ _ _ h2
  constructor
  · apply suffix_mem (eatLit_append _ _ _ h1)
    rw [e2]
    exact List.mem_cons_self _ _
  · apply suffix_mem (eatLit_append _ _ _ h1)
    rw [e2]
    exact List.mem_cons_of_mem _ (lazyContentTo_close_mem _ _ _ _ h3)

theorem tryAttrFix_quotes (openQ closeQ : Char) (cs : List Char)
    (out : List Char × List Char) (h : tryAttrFix openQ closeQ cs = some out) :
    openQ ∈ cs ∧ closeQ ∈ cs := by
  simp only [tryAttrFix, Option.bind_eq_some] at h
  obtain ⟨⟨wn, r0⟩, h1, r1, he, r2, h2, p, h3, -⟩ := h
  have e1 : r0 = '=' :: r1 := expectChar_append _ _ _ he
  have e2 : r1 = openQ :: r2 := expectChar_append _ _ _ h2
  constructor
  · apply suffix_mem (eatWordPlus_append _ _ _ h1)
    rw [e1, e2]
    exact List.mem_cons_of_mem _ (List.mem_cons_self _ _)
  · apply suffix_mem (eatWordPlus_append _ _ _ h1)
    rw [e1, e2]
    refine List.mem_cons_of_mem _ (List.mem_cons_of_mem _ ?_)
    exact lazyContentTo_close_mem _ _ _ _ h3

theorem tryClassNameSingle_sq (cs : List Char) (out : List Char × List Char)
    (h : tryClassNameSingle cs = some out) : sq ∈ cs := by
  simp only [tryClassNameSingle, Option.bind_eq_some] at h
  obtain ⟨r1, h1, r2, h2, r4, h3, -⟩ := h
  apply suffix_mem (eatLit_append _ _ _ h1)
  rw [expectChar_append _ _ _ h2]
  exact List.mem_cons_self _ _

/-- A global unanchored replace whose matcher can only fire on inputs
containing a `bad` character is the identity on inputs without one. -/
theorem scanReplace_id (try1 : List Char → Option (List Char × List Char))
    (bad : Char → Prop)
    (H : ∀ cs out, try1 cs = some out → ∃ x ∈ cs, bad x) :
    ∀ (fuel : Nat) (cs : List Char), (∀ x ∈ cs, ¬ bad x) → scanReplace try1 fuel cs = cs := by
  intro fuel
  induction fuel with
  | zero => intro cs _; rfl
  | succ fuel ih =>
    intro cs hcs
    cases cs with
    | nil => rfl
    | cons c cs' =>
      have hnone : try1 (c :: cs') = none := by
        cases htry : try1 (c :: cs') with
        | none => rfl
        | some out =>
          obtain ⟨x, hx, hbad⟩ := H _ _ htry
          exact absurd hbad (hcs x hx)
      simp only [scanReplace, hnone]
      rw [ih cs' (fun x hx => hcs x (List.mem_cons_of_mem _ hx))]

/-- Anchored version of `scanReplace_id`. -/
theorem scanReplaceM_id (try1 : List Char → Option (List Char × List Char))
    (bad : Char → Prop)
    (H : ∀ cs out, try1 cs = some out → ∃ x ∈ cs, bad x) :
    ∀ (fuel : Nat) (b : Bool) (cs : List Char), (∀ x ∈ cs, ¬ bad x) →
      scanReplaceM try1 fuel b cs = cs := by
  intro fuel
  induction fuel with
  | zero => intro b cs _; rfl
  | succ fuel ih =>
    intro b cs hcs
    cases cs with
    | nil => rfl
    | cons c cs' =>
      have hnone : try1 (c :: cs') = none := by
        cases htry : try1 (c :: cs') with
        | none => rfl
        | some out =>
          obtain ⟨x, hx, hbad⟩ := H _ _ htry
          exact absurd hbad (hcs x hx)
      have hrec := ih (isLineBreak c) cs' (fun x hx => hcs x (List.mem_cons_of_mem _ hx))
      cases b with
      | true =>
        simp only [scanReplaceM, hnone]
        rw [hrec]
        simp
      | false =>
        simp only [scanReplaceM]
        rw [hrec]
        simp

theorem runReplace_id (try1 : List Char → Option (List Char × List Char))
    (bad : Char → Prop)
    (H : ∀ cs out, try1 cs = some out → ∃ x ∈ cs, bad x)
    (s : String) (hs : ∀ x ∈ s.data, ¬ bad x) : runReplace try1 s = s := by
  unfold runReplace
  rw [scanReplace_id try1 bad H _ _ hs]

theorem runReplaceM_id (try1 : List Char → Option (List Char × List Char))
    (bad : Char → Prop)
    (H : ∀ cs out, try1 cs = some out → ∃ x ∈ cs, bad x)
    (s : String) (hs : ∀ x ∈ s.data, ¬ bad x) : runReplaceM try1 s = s := by
  unfold runReplaceM
  rw [scanReplaceM_id try1 bad H _ _ _ hs]

/-- On a string containing neither `(` nor an apostrophe, every sanitizer rule
misfires and `sanitizeCode` is the identity. -/
theorem sanitizeCode_fixed (s : String) (hp : '(' ∉ s.data) (hq : sq ∉ s.data) :
    sanitizeCode s = s := by
  have hparen : ∀ x ∈ s.data, ¬ x = '(' := fun x hx he => hp (he ▸ hx)
  have hsq : ∀ x ∈ s.data, ¬ x = sq := fun x hx he => hq (he ▸ hx)
  have h1 := runReplaceM_id tryDefaultFn (· = '(')
    (fun cs out h => ⟨'(', tryDefaultFn_paren cs out h, rfl⟩) s hparen
  have h2 := runReplaceM_id tryExportDefaultFn (· = '(')
    (fun cs out h => ⟨'(', tryExportDefaultFn_paren cs out h, rfl⟩) s hparen
  have h3 := runReplace_id tryNlExportDefaultFn (· = '(')
    (fun cs out h => ⟨'(', tryNlExportDefaultFn_paren cs out h, rfl⟩) s hparen
  have h4 := runReplace_id tryNlDefaultFn (· = '(')
    (fun cs out h => ⟨'(', tryNlDefaultFn_paren cs out h, rfl⟩) s hparen
  have h5 := runReplace_id (tryClassNameFix sq dq) (· = sq)
    (fun cs out h => ⟨sq, (tryClassNameFix_quotes sq dq cs out h).1, rfl⟩) s hsq
  have h6 := runReplace_id (tryClassNameFix dq sq) (· = sq)
    (fun cs out h => ⟨sq, (tryClassNameFix_quotes dq sq cs out h).2, rfl⟩) s hsq
  have h7 := runReplace_id (tryAttrFix sq dq) (· = sq)
    (fun cs out h => ⟨sq, (tryAttrFix_quotes sq dq cs out h).1, rfl⟩) s hsq
  have h8 := runReplace_id (tryAttrFix dq sq) (· = sq)
    (fun cs out h => ⟨sq, (tryAttrFix_quotes dq sq cs out h).2, rfl⟩) s hsq
  have h9 := runReplace_id tryClassNameSingle (· = sq)
    (fun cs out h => ⟨sq, tryClassNameSingle_sq cs out h, rfl⟩) s hsq
  have h10 := runReplaceM_id tryFnKeyword (· = '(')
    (fun cs out h => ⟨'(', tryFnKeyword_paren cs out h, rfl⟩) s hparen
  simp only [sanitizeCode]
  rw [h1, h2, h3, h4, h5, h6, h7, h8, h9, h10]

/-- C7, counterexample: the sanitizer is not idempotent.  On `a='b='c">x">`
the first pass rewrites the inner `b='c">` (rule `(\w+)='([^']*?)"\s*>`) to
`b="c">`; the double quote this introduces lets the same rule match again on
the second pass (content may contain double quotes), which rewrites the outer
`a='...">` as well, so the second application changes the string again. -/
theorem C7_counterexample :
    sanitizeCode (sanitizeCode "a=\x27b=\x27c\">x\">")
      ≠ sanitizeCode "a=\x27b=\x27c\">x\">" := by
  decide

/-- C7 (amended): `sanitize(sanitize(x)) = sanitize(x)` does not hold for
every string; it does hold on every input containing neither `(` nor an
apostrophe (on such inputs every rule misfires and the sanitizer is the
identity).  A crafted attribute-like fragment with mismatched quotes makes a
second pass rewrite further. -/
theorem C7_amended (s : String) (hp : '(' ∉ s.data) (hq : sq ∉ s.data) :
    sanitizeCode (sanitizeCode s) = sanitizeCode s := by
  rw [sanitizeCode_fixed s hp hq, sanitizeCode_fixed s hp hq]

/-- C7, witness: the amended idempotence at a concrete quote-free input. -/
theorem C7_witness :
    sanitizeCode (sanitizeCode "hello world") = sanitizeCode "hello world" :=
  C7_amended "hello world" (by decide) (by decide)

/-! ## ModelFallbackClient (`callGroqAPI` of `generate-stream/route.ts`) -/

/-- A chat message. -/
structure Message where
  role : String
  content : String

/-- A fallback-chain model candidate. -/
structure ModelCandidate where
  id : String
  maxTokens : Nat

/-- The configured model list (`MODELS`). -/
def MODELS : List ModelCandidate :=
  [⟨"llama-3.3-70b-versatile", 8000⟩, ⟨"llama-3.1-8b-instant", 4000⟩]

/-- The request `callGroqAPI` builds per candidate: the model id, the message
list with the placeholder system message replaced by the model-specific
system prompt (`messages.slice(1)` keeps the rest), the candidate's token
budget, and the tool schemas passed through opaquely (type `τ`).  The constant
`temperature: 0.7` does not influence control flow and is not modelled
(floating point). -/
structure GroqRequest (τ : Type) where
  model : String
  messages : List Message
  maxTokens : Nat
  tools : τ

/-- Build the per-candidate request. -/
def buildGroqRequest {τ : Type} (m : ModelCandidate) (messages : List Message)
    (tools : τ) (isFollowUp : Bool) : GroqRequest τ :=
  { model := m.id
    messages := { role := "system", content := getSystemPrompt m.id ⟨isFollowUp⟩ }
      :: messages.drop 1
    maxTokens := m.maxTokens
    tools := tools }

/-- Outcome of one `fetch` to the completions endpoint: HTTP success with
parsed body, HTTP error with error text, or a thrown network error. -/
inductive FetchOut (α : Type) : Type where
  | success (data : α)
  | httpErr (body : String)
  | netErr (msg : String)

/-- Result of `callGroqAPI`: `{data, model}` or `{error}`. -/
inductive GroqResult (α : Type) : Type where
  | success (data : α) (model : String)
  | failure (error : String)

/-- The candidate loop of `callGroqAPI`, with the `lastError` accumulator made
explicit.  `allModels` is the full candidate list (`MODELS` in the source):
the `tool_use_failed` retry below the retry cap restarts the whole chain with
a fresh `lastError`, exactly like the source's recursive
`callGroqAPI(..., retryCount + 1)`. -/
def callGroqGo {α τ : Type} (oracle : GroqRequest τ → FetchOut α)
    (allModels : List ModelCandidate) (messages : List Message) (tools : τ)
    (isFollowUp : Bool) (retryCount : Nat) (models : List ModelCandidate)
    (lastError : String) : GroqResult α :=
  match models with
  | [] => .failure (if lastError = "" then "All models failed" else lastError)
  | m :: rest =>
    match oracle (buildGroqRequest m messages tools isFollowUp) with
    | .success d => .success d m.id
    | .httpErr body =>
      if strContainsB body "rate_limit" || strContainsB body "Rate limit" then
        callGroqGo oracle allModels messages tools isFollowUp retryCount rest
          ("Rate limited on " ++ m.id)
      else if strContainsB body "tool_use_failed" then
        if hlt : retryCount < 2 then
          callGroqGo oracle allModels messages tools isFollowUp (retryCount + 1) allModels ""
        else
          callGroqGo oracle allModels messages tools isFollowUp retryCount rest
            "Model failed to use tools correctly. Please try a simpler request."
      else
        callGroqGo oracle allModels messages tools isFollowUp retryCount rest body
    | .netErr msg =>
      callGroqGo oracle allModels messages tools isFollowUp retryCount rest msg
termination_by (3 - retryCount, models.length)
decreasing_by
  · apply Prod.Lex.right; simp [List.length_cons]
  · apply Prod.Lex.left; omega
  · apply Prod.Lex.right; simp [List.length_cons]
  · apply Prod.Lex.right; simp [List.length_cons]
  · apply Prod.Lex.right; simp [List.length_cons]

/-- `callGroqAPI(messages, tools, isFollowUp, retryCount)` over an abstract
HTTP oracle and candidate list. -/
def callGroqAPI {α τ : Type} (oracle : GroqRequest τ → FetchOut α)
    (allModels : List ModelCandidate) (messages : List Message) (tools : τ)
    (isFollowUp : Bool) (retryCount : Nat) : GroqResult α :=
  callGroqGo oracle allModels messages tools isFollowUp retryCount allModels ""

/-! ## Claim C5 — rate-limit fallback -/

/-- C5: with two candidates where calling the first always yields a rate-limit
error body and calling the second succeeds, `callGroqAPI` returns the second
model's data together with the second model's id; and in general, as soon as a
candidate succeeds, the result is that candidate's data and id regardless of
any later candidates (they are never consulted). -/
theorem C5_theorem {α τ : Type} (oracle : GroqRequest τ → FetchOut α)
    (m1 m2 : ModelCandidate) (messages : List Message) (tools : τ)
    (isFollowUp : Bool) (body : String) (d : α)
    (h1 : oracle (buildGroqRequest m1 messages tools isFollowUp) = .httpErr body)
    (hrl : strContainsB body "rate_limit" = true ∨ strContainsB body "Rate limit" = true)
    (h2 : oracle (buildGroqRequest m2 messages tools isFollowUp) = .success d) :
    callGroqAPI oracle [m1, m2] messages tools isFollowUp 0 = .success d m2.id
    ∧ ∀ (allModels rest : List ModelCandidate) (retryCount : Nat) (lastError : String),
        callGroqGo oracle allModels messages tools isFollowUp retryCount
          (m2 :: rest) lastError = .success d m2.id := by
  have hsucc : ∀ (allModels rest : List ModelCandidate) (retryCount : Nat) (lastError : String),
      callGroqGo oracle allModels messages tools isFollowUp retryCount
        (m2 :: rest) lastError = .success d m2.id := by
    intro allModels rest retryCount lastError
    rw [callGroqGo, h2]
  refine ⟨?_, hsucc⟩
  have hcond : (strContainsB body "rate_limit" || strContainsB body "Rate limit") = true := by
    rcases hrl with h | h <;> simp [h]
  unfold callGroqAPI
  rw [callGroqGo, h1]
  simp [hcond, hsucc]

/-- C5, witness: a concrete two-model scenario (the configured `MODELS` list)
with a rate-limiting first model and a succeeding second model. -/
theorem C5_witness :
    callGroqAPI
      (fun req => if req.model = "llama-3.3-70b-versatile"
        then FetchOut.httpErr "rate_limit reached"
        else FetchOut.success 7)
      MODELS [] () false 0
      = GroqResult.success 7 "llama-3.1-8b-instant"
    ∧ callGroqGo
        (fun req => if req.model = "llama-3.3-70b-versatile"
          then FetchOut.httpErr "rate_limit reached"
          else FetchOut.success 7)
        MODELS [] () false 0 [⟨"llama-3.1-8b-instant", 4000⟩] ""
        = GroqResult.success 7 "llama-3.1-8b-instant" := by
  have h := C5_theorem (τ := Unit) (α := Nat)
    (fun req => if req.model = "llama-3.3-70b-versatile"
      then FetchOut.httpErr "rate_limit reached"
      else FetchOut.success 7)
    ⟨"llama-3.3-70b-versatile", 8000⟩ ⟨"llama-3.1-8b-instant", 4000⟩ [] () false
    "rate_limit reached" 7
    (by rfl) (Or.inl (by decide)) (by rfl)
  exact ⟨h.1, h.2 MODELS [] 0 ""⟩

/-! ## CSS-import extraction and placeholder generation
(`extractCssImports`, `generatePlaceholderCss` of `generate-stream/route.ts`) -/

/-- Candidate split points for the greedy capture `(.+\.css)` followed by a
quote: walking the input (reversed capture so far in `accRev`), record a
candidate whenever the current character is a quote and the capture so far
ends in `.css` with something before it; `.` does not match line breaks, so
the walk stops there.  Since JavaScript's `.+` is greedy, the match chosen is
the LAST (longest) candidate. -/
def cssSplitsAux (accRev : List Char) : List Char → List (List Char × List Char)
  | [] => []
  | c :: cs =>
    let cands :=
      if isQuoteChar c && accRev.take 4 = ['s', 's', 'c', '.'] && 5 ≤ accRev.length then
        [(accRev.reverse, cs)]
      else []
    if isLineBreak c then cands
    else cands ++ cssSplitsAux (c :: accRev) cs

/-- Matcher for `import\s+['"](.+\.css)['"]`, returning the captured import
path and the rest after the match. -/
def tryCssImport (cs : List Char) : Option (List Char × List Char) :=
  (eatLit "import".data cs).bind fun r1 =>
  (eatWsPlus r1).bind fun p2 =>
  match p2.2 with
  | q :: r2 => if isQuoteChar q then (cssSplitsAux [] r2).getLast? else none
  | [] => none

/-- Global scan collecting all captures of a matcher (the `while exec` loop). -/
def scanCollect (try1 : List Char → Option (List Char × List Char)) : Nat → List Char → List (List Char)
  | 0, _ => []
  | _ + 1, [] => []
  | fuel + 1, c :: cs =>
    match try1 (c :: cs) with
    | some (capture, rest) => capture :: scanCollect try1 fuel rest
    | none => scanCollect try1 fuel cs

/-- Index of the last `/` in a path. -/
def lastSlashIdx : List Char → Option Nat
  | [] => none
  | c :: cs =>
    match lastSlashIdx cs with
    | some i => some (i + 1)
    | none => if c = '/' then some 0 else none

/-- `filePath.substring(0, filePath.lastIndexOf('/'))` (the empty string when
there is no slash, since `substring(0, -1)` clamps to 0). -/
def fileDirOf (filePath : String) : String :=
  match lastSlashIdx filePath.data with
  | some i => String.mk (filePath.data.take i)
  | none => ""

/-- `extractCssImports(code, filePath)`: collect the captured CSS import paths
and resolve each relative to the importing file's directory. -/
def extractCssImports (code filePath : String) : List String :=
  (scanCollect tryCssImport (code.data.length + 1) code.data).map fun cap =>
    let importPath := String.mk cap
    if strStartsWith importPath "./" then
      fileDirOf filePath ++ importPath.drop 1
    else if !(strStartsWith importPath "/") then
      fileDirOf filePath ++ "/" ++ importPath
    else importPath

/-- Insert `-` before each ASCII uppercase letter (`replace(/([A-Z])/g, '-$1')`;
dead in practice because the input is lower-cased first, modelled anyway). -/
def dashUpper : List Char → List Char
  | [] => []
  | c :: cs => if c.isUpper then '-' :: c :: dashUpper cs else c :: dashUpper cs

/-- Strip one leading dash (the `replace` with the caret-dash regex). -/
def stripLeadingDash : List Char → List Char
  | '-' :: cs => cs
  | cs => cs

/-- The characters after the last `/` (`cssPath.split('/').pop()`). -/
def afterLastSlash (cs : List Char) : List Char :=
  (cs.reverse.takeWhile (fun c => !(c = '/'))).reverse

/-- `generatePlaceholderCss(cssPath)`. -/
def generatePlaceholderCss (cssPath : String) : String :=
  let popped := replaceFirst (String.mk (afterLastSlash cssPath.data)) ".css" ""
  let componentName := if popped = "" then "component" else popped
  let className := String.mk
    (stripLeadingDash (dashUpper (componentName.data.map Char.toLower)))
  "/* Auto-generated styles for " ++ componentName ++ " */\n." ++ className
    ++ " \x7b\n  /* Add custom styles here */\n\x7d\n"

/-! ## GenerationOrchestrator stream events
(the `ReadableStream.start` body of `generate-stream/route.ts`) -/

/-- One tool invocation of the model response. -/
structure ToolCall where
  name : String
  arguments : String

/-- `data.choices[0].message`. -/
structure ModelMessage where
  content : Option String
  tool_calls : Option (List ToolCall)

/-- The server-sent events of the streaming route. -/
inductive StreamEvent : Type where
  | thinking (message : String)
  | writeFile (path content message : String)
  | showPreview (message : String)
  | text (content : String)
  | error (message : String)
  | done
deriving DecidableEq

/-- The loop state of the tool-call handler. -/
structure ToolLoopState where
  hasWrittenFiles : Bool
  hasCalledShowPreview : Bool
  createdFiles : List String
  requiredCssFiles : List String
deriving DecidableEq

/-- `Set.add`: JavaScript set insertion (insertion order, no duplicates). -/
def setAdd (l : List String) (x : String) : List String :=
  if l.contains x then l else l ++ [x]

/-- Initial loop state. -/
def initToolLoopState : ToolLoopState := ⟨false, false, [], []⟩

/-- The write-file path of a tool call as the route reads it (`none` for other
tools, unparseable arguments or a missing/non-string `path`). -/
def wfPathOf (tc : ToolCall) : Option String :=
  if tc.name = "writeFile" then
    (parseToolArguments tc.arguments).bind fun args => jGetStr args "path"
  else none

/-- The CSS paths a write-file call records as required. -/
def cssImportsOf (tc : ToolCall) : List String :=
  if tc.name = "writeFile" then
    match parseToolArguments tc.arguments with
    | some args =>
      match jGetStr args "path", jGetStr args "content" with
      | some p, some c => extractCssImports c p
      | _, _ => []
    | none => []
  else []

/-- One iteration of the tool-call loop: the events it sends and the updated
state, or `none` for the exception path (a parsed `writeFile` object whose
`path`/`content` is missing or not a string makes the JavaScript loop throw
inside `sanitizeCode`/`extractCssImports`; the streaming wrapper catches it).
A parse failure (`null`) merely skips the call.  Non-string `description` or
`message` values are modelled by their string fallbacks. -/
def stepToolCall (tc : ToolCall) (st : ToolLoopState) :
    Option (List StreamEvent × ToolLoopState) :=
  match parseToolArguments tc.arguments with
  | none => some ([], st)
  | some args =>
    if tc.name = "writeFile" then
      match jGetStr args "path", jGetStr args "content" with
      | some filePath, some rawContent =>
        let cssImports := extractCssImports rawContent filePath
        let st' : ToolLoopState :=
          { hasWrittenFiles := true
            hasCalledShowPreview := st.hasCalledShowPreview
            createdFiles := setAdd st.createdFiles filePath
            requiredCssFiles := cssImports.foldl setAdd st.requiredCssFiles }
        let description := jsOrS (jGetStr args "description") ("Creating " ++ filePath)
        some ([.writeFile filePath (sanitizeCode rawContent) description], st')
      | _, _ => none
    else if tc.name = "showPreview" then
      some ([.showPreview (jsOrS (jGetStr args "message") "Your app is ready!")],
        { st with hasCalledShowPreview := true })
    else
      some ([], st)

/-- The whole tool-call loop: emitted events plus final state (`none` when an
iteration threw; events already emitted stand). -/
def runToolCalls : List ToolCall → ToolLoopState → List StreamEvent × Option ToolLoopState
  | [], st => ([], some st)
  | tc :: rest, st =>
    match stepToolCall tc st with
    | none => ([], none)
    | some (evs, st') =>
      let (evs', res) := runToolCalls rest st'
      (evs ++ evs', res)

/-- Auto-created CSS files: every required path not explicitly created, in
order, as placeholder write-file events. -/
def autoCssEvents (st : ToolLoopState) : List StreamEvent :=
  (st.requiredCssFiles.filter (fun p => !(st.createdFiles.contains p))).map fun cssPath =>
    .writeFile cssPath (generatePlaceholderCss cssPath)
      ("Creating " ++ cssPath ++ " (auto-generated)")

/-- Auto-triggered preview when files were written but `showPreview` never
called. -/
def autoPreviewEvents (st : ToolLoopState) : List StreamEvent :=
  if st.hasWrittenFiles && !st.hasCalledShowPreview then
    [.showPreview "Your app is ready!"]
  else []

/-- Trailing assistant text (`if (message.content) sendEvent text`). -/
def trailingTextEvents (content? : Option String) : List StreamEvent :=
  match content? with
  | some c => if c = "" then [] else [.text c]
  | none => []

/-- JavaScript truthiness of an optional string. -/
def jsTruthyS : Option String → Bool
  | some s => !(s == "")
  | none => false

/-- The leaked-tool-syntax check applied to a text-only response. -/
def leakedToolSyntax (c : String) : Bool :=
  strContainsB c "<writeFile>" || strContainsB c "writeFile(" ||
  strContainsB c "\"path\":" || strContainsB c "```"

/-- The caught-exception message of the stream's catch-all.  Its text is the
JavaScript runtime's `TypeError` message and is modelled by the fallback
constant the route uses for non-`Error` values. -/
def streamCrashMsg : String := "Unknown error"

/-- The tool-calls branch of the handler (second `thinking` event, the loop,
auto CSS, auto preview, trailing text, `done`; or the catch-all on a throw). -/
def toolCallsBranch (content? : Option String) (calls : List ToolCall) : List StreamEvent :=
  [.thinking "Building your application..."] ++
  (match runToolCalls calls initToolLoopState with
   | (evs, none) => evs ++ [.error streamCrashMsg, .done]
   | (evs, some st) =>
     evs ++ autoCssEvents st ++ autoPreviewEvents st
       ++ trailingTextEvents content? ++ [.done])

/-- The full event sequence the streaming route emits for a successfully
fetched model message (`data.choices[0]?.message`; `none` models a missing
message).  The initial `thinking` event is sent before the model call. -/
def streamEvents (msg : Option ModelMessage) : List StreamEvent :=
  .thinking "Analyzing your request..." ::
  (match msg with
   | none => [.error "No response from model", .done]
   | some m =>
     if jsTruthyS m.content && m.tool_calls.isNone then
       match m.content with
       | some c =>
         if leakedToolSyntax c then
           [.error "I encountered an issue. Please try again with a simpler request.", .done]
         else [.text c, .done]
       | none => [.done]
     else if (match m.tool_calls with | some l => !l.isEmpty | none => false : Bool) then
       match m.tool_calls with
       | some calls => toolCallsBranch m.content calls
       | none => [.done]
     else [.done])

/-! ## Claim C2 — event order for writeFile calls followed by showPreview -/

/-- A `writeFile` call whose arguments parse to an object with string `path`
and `content`. -/
def wfCallOk (tc : ToolCall) : Bool :=
  tc.name == "writeFile" &&
  (match parseToolArguments tc.arguments with
   | some args => (jGetStr args "path").isSome && (jGetStr args "content").isSome
   | none => false)

/-- A well-formed `writeFile` call whose content imports no CSS paths. -/
def wfCallClean (tc : ToolCall) : Bool :=
  wfCallOk tc && (cssImportsOf tc).isEmpty

/-- A `showPreview` call with parseable arguments. -/
def spCallOk (tc : ToolCall) : Bool :=
  tc.name == "showPreview" && (parseToolArguments tc.arguments).isSome

/-- A call on which the loop iteration does not throw. -/
def callSafe (tc : ToolCall) : Bool :=
  if tc.name == "writeFile" then
    match parseToolArguments tc.arguments with
    | none => true
    | some args => (jGetStr args "path").isSome && (jGetStr args "content").isSome
  else true

/-- The event a well-formed `writeFile` call produces. -/
def wfEventOf (tc : ToolCall) : StreamEvent :=
  match parseToolArguments tc.arguments with
  | some args =>
    match jGetStr args "path", jGetStr args "content" with
    | some p, some c =>
      .writeFile p (sanitizeCode c) (jsOrS (jGetStr args "description") ("Creating " ++ p))
    | _, _ => .done
  | none => .done

/-- The event a parseable `showPreview` call produces. -/
def spEventOf (tc : ToolCall) : StreamEvent :=
  match parseToolArguments tc.arguments with
  | some args => .showPreview (jsOrS (jGetStr args "message") "Your app is ready!")
  | none => .done

theorem stepToolCall_wf (tc : ToolCall) (st : ToolLoopState) (hok : wfCallOk tc = true) :
    stepToolCall tc st = some ([wfEventOf tc],
      { hasWrittenFiles := true
        hasCalledShowPreview := st.hasCalledShowPreview
        createdFiles := setAdd st.createdFiles ((wfPathOf tc).getD "")
        requiredCssFiles := (cssImportsOf tc).foldl setAdd st.requiredCssFiles }) := by
  unfold wfCallOk at hok
  cases hparse : parseToolArguments tc.arguments with
  | none => rw [hparse] at hok; simp at hok
  | some args =>
    rw [hparse] at hok
    dsimp only at hok
    have hname : tc.name = "writeFile" := by
      cases hn : tc.name == "writeFile" with
      | false => rw [hn] at hok; simp at hok
      | true => exact eq_of_beq hn
    cases hpath : jGetStr args "path" with
    | none => rw [hpath] at hok; simp at hok
    | some p =>
      cases hcont : jGetStr args "content" with
      | none => rw [hpath, hcont] at hok; simp at hok
      | some c =>
        simp [stepToolCall, wfEventOf, wfPathOf, cssImportsOf, hname, hparse, hpath, hcont]

theorem stepToolCall_sp (tc : ToolCall) (st : ToolLoopState) (hsp : spCallOk tc = true) :
    stepToolCall tc st = some ([spEventOf tc],
      { st with hasCalledShowPreview := true }) := by
  unfold spCallOk at hsp
  cases hparse : parseToolArguments tc.arguments with
  | none => rw [hparse] at hsp; simp at hsp
  | some args =>
    have hname : tc.name = "showPreview" := by
      cases hn : tc.name == "showPreview" with
      | false => rw [hn] at hsp; simp at hsp
      | true => exact eq_of_beq hn
    have hnw : ¬ (tc.name = "writeFile") := by rw [hname]; decide
    simp [stepToolCall, spEventOf, hname, hparse, hnw]

theorem runToolCalls_clean (wfs : List ToolCall) :
    ∀ st : ToolLoopState, (∀ tc ∈ wfs, wfCallClean tc = true) →
      ∃ b created',
        runToolCalls wfs st = (wfs.map wfEventOf,
          some ⟨b, st.hasCalledShowPreview, created', st.requiredCssFiles⟩) := by
  induction wfs with
  | nil =>
    intro st _
    exact ⟨st.hasWrittenFiles, st.createdFiles, rfl⟩
  | cons tc rest ih =>
    intro st h
    have htc := h tc (List.mem_cons_self _ _)
    have hok : wfCallOk tc = true := by
      unfold wfCallClean at htc
      exact (Bool.and_eq_true_iff.mp htc).1
    have hclean : (cssImportsOf tc).isEmpty = true := by
      unfold wfCallClean at htc
      exact (Bool.and_eq_true_iff.mp htc).2
    have hnil : cssImportsOf tc = [] := List.isEmpty_iff.mp hclean
    obtain ⟨b, created', hrec⟩ := ih
      { hasWrittenFiles := true
        hasCalledShowPreview := st.hasCalledShowPreview
        createdFiles := setAdd st.createdFiles ((wfPathOf tc).getD "")
        requiredCssFiles := st.requiredCssFiles }
      (fun tc' htc' => h tc' (List.mem_cons_of_mem _ htc'))
    refine ⟨b, created', ?_⟩
    simp only [runToolCalls, stepToolCall_wf tc st hok, hnil, List.foldl_nil]
    rw [hrec]
    simp

theorem runToolCalls_append (l1 l2 : List ToolCall) :
    ∀ st : ToolLoopState,
      runToolCalls (l1 ++ l2) st =
        match runToolCalls l1 st with
        | (evs, none) => (evs, none)
        | (evs, some st') =>
          (evs ++ (runToolCalls l2 st').1, (runToolCalls l2 st').2) := by
  induction l1 with
  | nil =>
    intro st
    simp [runToolCalls]
  | cons tc rest ih =>
    intro st
    simp only [List.cons_append, runToolCalls]
    cases hstep : stepToolCall tc st with
    | none => rfl
    | some p =>
      obtain ⟨evs, st'⟩ := p
      dsimp only
      rw [List.append_eq, ih st']
      cases hrec : runToolCalls rest st' with
      | mk evs2 res =>
        cases res with
        | none => simp
        | some st2 => simp

/-- C2, counterexample: for a response with one parseable `writeFile` call and
one `showPreview` call the handler emits TWO `thinking` events (the initial
"Analyzing your request..." and the tool-branch "Building your
application..."), not exactly one. -/
theorem C2_counterexample :
    streamEvents (some ⟨none, some
      [⟨"writeFile", "\x7b\"path\": \"/App.js\", \"content\": \"hello\"\x7d"⟩,
       ⟨"showPreview", "\x7b\"message\": \"Done!\"\x7d"⟩]⟩)
      = [.thinking "Analyzing your request...",
         .thinking "Building your application...",
         .writeFile "/App.js" "hello" "Creating /App.js",
         .showPreview "Done!",
         .done]
    ∧ (streamEvents (some ⟨none, some
        [⟨"writeFile", "\x7b\"path\": \"/App.js\", \"content\": \"hello\"\x7d"⟩,
         ⟨"showPreview", "\x7b\"message\": \"Done!\"\x7d"⟩]⟩)).countP
        (fun e => match e with | StreamEvent.thinking _ => true | _ => false) = 2 := by
  constructor
  · decide
  · decide

/-! ## Claim C3 — single auto-generated CSS file per missing import -/

/-- The `createdFiles` set after processing a call list. -/
def createdFold (calls : List ToolCall) (r : List String) : List String :=
  calls.foldl (fun acc tc =>
    match wfPathOf tc with
    | some pa => setAdd acc pa
    | none => acc) r

/-- The `requiredCssFiles` set after processing a call list. -/
def requiredFold (calls : List ToolCall) (r : List String) : List String :=
  calls.foldl (fun acc tc => (cssImportsOf tc).foldl setAdd acc) r

theorem contains_iff_mem (l : List String) (x : String) :
    l.contains x = true ↔ x ∈ l := by
  induction l with
  | nil => simp
  | cons a t ih => simp [List.contains, List.elem_cons, ih]

theorem mem_setAdd (l : List String) (x y : String) :
    y ∈ setAdd l x ↔ y ∈ l ∨ y = x := by
  unfold setAdd
  by_cases hc : l.contains x = true
  · rw [if_pos hc]
    constructor
    · exact Or.inl
    · rintro (h | rfl)
      · exact h
      · exact (contains_iff_mem l y).mp hc
  · rw [if_neg hc]
    simp

theorem setAdd_nodup (l : List String) (x : String) (h : l.Nodup) :
    (setAdd l x).Nodup := by
  unfold setAdd
  by_cases hc : l.contains x = true
  · rw [if_pos hc]; exact h
  · rw [if_neg hc]
    have hx : x ∉ l := fun hm => hc ((contains_iff_mem l x).mpr hm)
    simp [List.nodup_append, h, hx]

theorem mem_foldl_setAdd (xs : List String) :
    ∀ (r : List String) (y : String), y ∈ xs.foldl setAdd r ↔ y ∈ r ∨ y ∈ xs := by
  induction xs with
  | nil => simp
  | cons a t ih =>
    intro r y
    simp only [List.foldl_cons, ih, mem_setAdd, List.mem_cons]
    tauto

theorem foldl_setAdd_nodup (xs : List String) :
    ∀ r : List String, r.Nodup → (xs.foldl setAdd r).Nodup := by
  induction xs with
  | nil => intro r h; exact h
  | cons a t ih =>
    intro r h
    exact ih _ (setAdd_nodup r a h)

theorem mem_requiredFold (calls : List ToolCall) :
    ∀ (r : List String) (y : String),
      y ∈ requiredFold calls r ↔ y ∈ r ∨ ∃ tc ∈ calls, y ∈ cssImportsOf tc := by
  induction calls with
  | nil => simp [requiredFold]
  | cons tc rest ih =>
    intro r y
    simp only [requiredFold, List.foldl_cons] at *
    rw [ih, mem_foldl_setAdd]
    constructor
    · rintro ((h | h) | ⟨tc', h1, h2⟩)
      · exact Or.inl h
      · exact Or.inr ⟨tc, List.mem_cons_self _ _, h⟩
      · exact Or.inr ⟨tc', List.mem_cons_of_mem _ h1, h2⟩
    · rintro (h | ⟨tc', h1, h2⟩)
      · exact Or.inl (Or.inl h)
      · rcases List.mem_cons.mp h1 with rfl | h1'
        · exact Or.inl (Or.inr h2)
        · exact Or.inr ⟨tc', h1', h2⟩

theorem requiredFold_nodup (calls : List ToolCall) :
    ∀ r : List String, r.Nodup → (requiredFold calls r).Nodup := by
  induction calls with
  | nil => intro r h; exact h
  | cons tc rest ih =>
    intro r h
    exact ih _ (foldl_setAdd_nodup _ _ h)

theorem mem_createdFold (calls : List ToolCall) :
    ∀ (r : List String) (y : String),
      y ∈ createdFold calls r → y ∈ r ∨ ∃ tc ∈ calls, wfPathOf tc = some y := by
  induction calls with
  | nil => intro r y h; exact Or.inl h
  | cons tc rest ih =>
    intro r y h
    simp only [createdFold, List.foldl_cons] at h
    cases hw : wfPathOf tc with
    | none =>
      rw [hw] at h
      rcases ih r y h with h' | ⟨tc', h1, h2⟩
      · exact Or.inl h'
      · exact Or.inr ⟨tc', List.mem_cons_of_mem _ h1, h2⟩
    | some pa =>
      rw [hw] at h
      rcases ih _ y h with h' | ⟨tc', h1, h2⟩
      · rcases (mem_setAdd r pa y).mp h' with h'' | rfl
        · exact Or.inl h''
        · exact Or.inr ⟨tc, List.mem_cons_self _ _, hw⟩
      · exact Or.inr ⟨tc', List.mem_cons_of_mem _ h1, h2⟩

/-- Every `writeFile` event the loop emits carries the path of some
`writeFile` call of the batch. -/
theorem stepToolCall_writeFile_mem (tc : ToolCall) (st : ToolLoopState)
    (evs₀ : List StreamEvent) (st' : ToolLoopState)
    (h : stepToolCall tc st = some (evs₀, st'))
    (pa c m : String) (hmem : StreamEvent.writeFile pa c m ∈ evs₀) :
    wfPathOf tc = some pa := by
  unfold stepToolCall at h
  cases hparse : parseToolArguments tc.arguments with
  | none =>
    rw [hparse] at h
    injection h with h'
    injection h' with he _
    rw [← he] at hmem
    cases hmem
  | some args =>
    rw [hparse] at h
    dsimp only at h
    by_cases hw : tc.name = "writeFile"
    · rw [if_pos hw] at h
      cases hpath : jGetStr args "path" with
      | none => rw [hpath] at h; cases h
      | some p =>
        cases hcont : jGetStr args "content" with
        | none => rw [hpath, hcont] at h; cases h
        | some cc =>
          rw [hpath, hcont] at h
          injection h with h'
          injection h' with he _
          rw [← he] at hmem
          rcases List.mem_singleton.mp hmem with heq
          injection heq with hp _ _
          simp [wfPathOf, hw, hparse, hpath, hp]
    · rw [if_neg hw] at h
      by_cases hs : tc.name = "showPreview"
      · rw [if_pos hs] at h
        injection h with h'
        injection h' with he _
        rw [← he] at hmem
        rcases List.mem_singleton.mp hmem with heq
        cases heq
      · rw [if_neg hs] at h
        injection h with h'
        injection h' with he _
        rw [← he] at hmem
        cases hmem

theorem runToolCalls_writeFile_mem (calls : List ToolCall) :
    ∀ (st : ToolLoopState) (evs : List StreamEvent) (res : Option ToolLoopState),
      runToolCalls calls st = (evs, res) →
      ∀ pa c m, StreamEvent.writeFile pa c m ∈ evs →
        ∃ tc ∈ calls, wfPathOf tc = some pa := by
  induction calls with
  | nil =>
    intro st evs res h pa c m hmem
    injection h with he _
    rw [← he] at hmem
    cases hmem
  | cons tc rest ih =>
    intro st evs res h pa c m hmem
    simp only [runToolCalls] at h
    cases hstep : stepToolCall tc st with
    | none =>
      rw [hstep] at h
      injection h with he _
      rw [← he] at hmem
      cases hmem
    | some p =>
      obtain ⟨evs₀, st'⟩ := p
      rw [hstep] at h
      dsimp only at h
      cases hrec : runToolCalls rest st' with
      | mk evs1 res1 =>
        rw [hrec] at h
        injection h with he _
        rw [← he] at hmem
        rcases List.mem_append.mp hmem with h0 | h1
        · exact ⟨tc, List.mem_cons_self _ _,
            stepToolCall_writeFile_mem tc st evs₀ st' hstep pa c m h0⟩
        · obtain ⟨tc', h1', h2'⟩ := ih st' evs1 res1 hrec pa c m h1
          exact ⟨tc', List.mem_cons_of_mem _ h1', h2'⟩

/-- Under crash-freedom the loop reaches the end of the batch and its final
created/required sets are the corresponding folds. -/
theorem runToolCalls_safe_state (calls : List ToolCall) :
    ∀ st : ToolLoopState, (∀ tc ∈ calls, callSafe tc = true) →
      ∃ evs b pv,
        runToolCalls calls st = (evs, some
          { hasWrittenFiles := b, hasCalledShowPreview := pv,
            createdFiles := createdFold calls st.createdFiles,
            requiredCssFiles := requiredFold calls st.requiredCssFiles }) := by
  induction calls with
  | nil =>
    intro st _
    exact ⟨[], st.hasWrittenFiles, st.hasCalledShowPreview, rfl⟩
  | cons tc rest ih =>
    intro st h
    have hsafe := h tc (List.mem_cons_self _ _)
    have hrest := fun tc' htc' => h tc' (List.mem_cons_of_mem _ htc')
    simp only [createdFold, requiredFold, List.foldl_cons]
    cases hparse : parseToolArguments tc.arguments with
    | none =>
      have hw : wfPathOf tc = none := by
        unfold wfPathOf
        by_cases hn : tc.name = "writeFile" <;> simp [hn, hparse]
      have hcss : cssImportsOf tc = [] := by
        unfold cssImportsOf
        by_cases hn : tc.name = "writeFile" <;> simp [hn, hparse]
      obtain ⟨evs, b, pv, hrec⟩ := ih st hrest
      refine ⟨evs, b, pv, ?_⟩
      simp only [runToolCalls, stepToolCall, hparse, hw, hcss, List.foldl_nil]
      rw [hrec]
      rfl
    | some args =>
      by_cases hn : tc.name = "writeFile"
      · unfold callSafe at hsafe
        rw [if_pos (beq_iff_eq.mpr hn), hparse] at hsafe
        dsimp only at hsafe
        cases hpath : jGetStr args "path" with
        | none => rw [hpath] at hsafe; simp at hsafe
        | some p =>
          cases hcont : jGetStr args "content" with
          | none => rw [hpath, hcont] at hsafe; simp at hsafe
          | some c =>
            have hw : wfPathOf tc = some p := by
              simp [wfPathOf, hn, hparse, hpath]
            have hcss : cssImportsOf tc = extractCssImports c p := by
              simp [cssImportsOf, hn, hparse, hpath, hcont]
            obtain ⟨evs, b, pv, hrec⟩ := ih
              { hasWrittenFiles := true
                hasCalledShowPreview := st.hasCalledShowPreview
                createdFiles := setAdd st.createdFiles p
                requiredCssFiles := (extractCssImports c p).foldl setAdd st.requiredCssFiles }
              hrest
            refine ⟨StreamEvent.writeFile p (sanitizeCode c)
              (jsOrS (jGetStr args "description") ("Creating " ++ p)) :: evs, b, pv, ?_⟩
            simp only [runToolCalls, stepToolCall, hparse, hn, if_true, hpath, hcont,
              hw, hcss]
            rw [hrec]
            rfl
      · have hw : wfPathOf tc = none := by simp [wfPathOf, hn]
        have hcss : cssImportsOf tc = [] := by simp [cssImportsOf, hn]
        by_cases hs : tc.name = "showPreview"
        · have hsp : spCallOk tc = true := by
            simp [spCallOk, hs, hparse]
          obtain ⟨evs, b, pv, hrec⟩ := ih
            { st with hasCalledShowPreview := true } hrest
          refine ⟨StreamEvent.showPreview
            (jsOrS (jGetStr args "message") "Your app is ready!") :: evs, b, pv, ?_⟩
          simp only [runToolCalls, stepToolCall_sp tc st hsp, spEventOf, hparse,
            hw, hcss, List.foldl_nil]
          rw [hrec]
          rfl
        · have hstep : stepToolCall tc st = some ([], st) := by
            unfold stepToolCall
            rw [hparse]
            dsimp only
            rw [if_neg hn, if_neg hs]
          obtain ⟨evs, b, pv, hrec⟩ := ih st hrest
          refine ⟨evs, b, pv, ?_⟩
          simp only [runToolCalls, hstep, hw, hcss, List.foldl_nil]
          rw [hrec]
          rfl

theorem countP_beq_one_of_nodup (l : List String) (x : String)
    (hnd : l.Nodup) (hx : x ∈ l) : l.countP (fun y => y == x) = 1 := by
  induction l with
  | nil => cases hx
  | cons a t ih =>
    rw [List.nodup_cons] at hnd
    rcases List.mem_cons.mp hx with rfl | hxt
    · have h0 : t.countP (fun y => y == x) = 0 := by
        rw [List.countP_eq_zero]
        intro y hy hbeq
        exact hnd.1 (eq_of_beq hbeq ▸ hy)
      rw [List.countP_cons, h0]
      simp
    · have hne : (a == x) = false := by
        by_contra hbeq
        have : (a == x) = true := by
          cases hab : a == x
          · exact absurd hab hbeq
          · rfl
        exact hnd.1 (eq_of_beq this ▸ hxt)
      rw [List.countP_cons, ih hnd.2 hxt, hne]
      simp

theorem countP_ext {α : Type} (l : List α) (p q : α → Bool)
    (h : ∀ a ∈ l, p a = q a) : l.countP p = l.countP q := by
  induction l with
  | nil => rfl
  | cons a t ih =>
    rw [List.countP_cons, List.countP_cons, h a (List.mem_cons_self _ _),
      ih (fun x hx => h x (List.mem_cons_of_mem _ hx))]

/-- C3: when some written file imports a CSS path (resolved against the
importing file's directory) that no `writeFile` call of the response writes,
the emitted stream contains exactly one `writeFile` event for that path; it is
the auto-generated placeholder event, located in the auto-CSS segment that
follows all model-issued tool-call events and precedes the `done` event —
even when several files import the same missing path. -/
theorem C3_theorem (content? : Option String) (calls : List ToolCall) (cssPath : String)
    (hsafe : ∀ tc ∈ calls, callSafe tc = true)
    (himp : ∃ tc ∈ calls, cssPath ∈ cssImportsOf tc)
    (hmiss : ∀ tc ∈ calls, ¬ wfPathOf tc = some cssPath) :
    ∃ evs st,
      runToolCalls calls initToolLoopState = (evs, some st)
      ∧ streamEvents (some ⟨content?, some calls⟩)
          = [.thinking "Analyzing your request...", .thinking "Building your application..."]
            ++ evs ++ autoCssEvents st ++ autoPreviewEvents st
            ++ trailingTextEvents content? ++ [.done]
      ∧ (autoCssEvents st).countP
          (fun e => e == StreamEvent.writeFile cssPath (generatePlaceholderCss cssPath)
            ("Creating " ++ cssPath ++ " (auto-generated)")) = 1
      ∧ (streamEvents (some ⟨content?, some calls⟩)).countP
          (fun e => match e with
            | StreamEvent.writeFile p _ _ => p == cssPath
            | _ => false) = 1 := by
  obtain ⟨evs, b, pv, hrun⟩ := runToolCalls_safe_state calls initToolLoopState hsafe
  have hne : calls.isEmpty = false := by
    obtain ⟨tc0, htc0, -⟩ := himp
    cases calls with
    | nil => cases htc0
    | cons _ _ => rfl
  refine ⟨evs,
    { hasWrittenFiles := b, hasCalledShowPreview := pv,
      createdFiles := createdFold calls initToolLoopState.createdFiles,
      requiredCssFiles := requiredFold calls initToolLoopState.requiredCssFiles },
    hrun, ?_, ?_, ?_⟩
  case _ =>
    simp [streamEvents, hne, toolCallsBranch, hrun]
  all_goals
    have hreqmem : cssPath ∈ requiredFold calls initToolLoopState.requiredCssFiles := by
      rw [mem_requiredFold]
      exact Or.inr himp
    have hreqnd : (requiredFold calls initToolLoopState.requiredCssFiles).Nodup :=
      requiredFold_nodup calls _ List.nodup_nil
    have hmisscreated :
        (createdFold calls initToolLoopState.createdFiles).contains cssPath = false := by
      cases hc : (createdFold calls initToolLoopState.createdFiles).contains cssPath with
      | false => rfl
      | true =>
        exfalso
        rcases mem_createdFold calls _ _ ((contains_iff_mem _ _).mp hc) with h0 | ⟨tc, htc, hw⟩
        · cases h0
        · exact hmiss tc htc hw
    have hfmem : cssPath ∈ (requiredFold calls initToolLoopState.requiredCssFiles).filter
        (fun p => !((createdFold calls initToolLoopState.createdFiles).contains p)) := by
      rw [List.mem_filter]
      exact ⟨hreqmem, by rw [hmisscreated]; rfl⟩
    have hfnd : ((requiredFold calls initToolLoopState.requiredCssFiles).filter
        (fun p => !((createdFold calls initToolLoopState.createdFiles).contains p))).Nodup :=
      hreqnd.filter _
    have hcount1 := countP_beq_one_of_nodup _ cssPath hfnd hfmem
  case _ =>
    unfold autoCssEvents
    rw [List.countP_map]
    rw [countP_ext _ _ (fun y => y == cssPath) ?_]
    · exact hcount1
    · intro x _
      by_cases hx : x = cssPath
      · subst hx; simp
      · simp [hx]
  case _ =>
    have hstream : streamEvents (some ⟨content?, some calls⟩)
        = [.thinking "Analyzing your request...", .thinking "Building your application..."]
          ++ evs ++ autoCssEvents
            { hasWrittenFiles := b, hasCalledShowPreview := pv,
              createdFiles := createdFold calls initToolLoopState.createdFiles,
              requiredCssFiles := requiredFold calls initToolLoopState.requiredCssFiles }
          ++ autoPreviewEvents
            { hasWrittenFiles := b, hasCalledShowPreview := pv,
              createdFiles := createdFold calls initToolLoopState.createdFiles,
              requiredCssFiles := requiredFold calls initToolLoopState.requiredCssFiles }
          ++ trailingTextEvents content? ++ [.done] := by
      simp [streamEvents, hne, toolCallsBranch, hrun]
    rw [hstream]
    simp only [List.countP_append]
    have c1 : ([StreamEvent.thinking "Analyzing your request...",
        StreamEvent.thinking "Building your application..."]).countP
        (fun e => match e with
          | StreamEvent.writeFile p _ _ => p == cssPath
          | _ => false) = 0 := rfl
    have c2 : evs.countP
        (fun e => match e with
          | StreamEvent.writeFile p _ _ => p == cssPath
          | _ => false) = 0 := by
      rw [List.countP_eq_zero]
      intro e he hp
      cases e with
      | writeFile p' c' m' =>
        obtain ⟨tc, htc, hw⟩ :=
          runToolCalls_writeFile_mem calls initToolLoopState evs _ hrun p' c' m' he
        exact hmiss tc htc (by rw [hw, eq_of_beq hp])
      | thinking m' => cases hp
      | showPreview m' => cases hp
      | text c' => cases hp
      | error m' => cases hp
      | done => cases hp
    have c3 : (autoCssEvents
        { hasWrittenFiles := b, hasCalledShowPreview := pv,
          createdFiles := createdFold calls initToolLoopState.createdFiles,
          requiredCssFiles := requiredFold calls initToolLoopState.requiredCssFiles }).countP
        (fun e => match e with
          | StreamEvent.writeFile p _ _ => p == cssPath
          | _ => false) = 1 := by
      unfold autoCssEvents
      rw [List.countP_map]
      exact hcount1
    have c4 : (autoPreviewEvents
        { hasWrittenFiles := b, hasCalledShowPreview := pv,
          createdFiles := createdFold calls initToolLoopState.createdFiles,
          requiredCssFiles := requiredFold calls initToolLoopState.requiredCssFiles }).countP
        (fun e => match e with
          | StreamEvent.writeFile p _ _ => p == cssPath
          | _ => false) = 0 := by
      unfold autoPreviewEvents
      split <;> rfl
    have c5 : (trailingTextEvents content?).countP
        (fun e => match e with
          | StreamEvent.writeFile p _ _ => p == cssPath
          | _ => false) = 0 := by
      cases content? with
      | none => rfl
      | some c =>
        by_cases hc : c = ""
        · simp [trailingTextEvents, hc]
        · simp [trailingTextEvents, hc]
    rw [c1, c2, c3, c4, c5]
    rfl

/-- C3, witness: one component importing `./Button.css` (never written) plus a
`showPreview` call; the hypotheses are discharged by evaluation. -/
theorem C3_witness :
    (∀ tc ∈ [(⟨"writeFile",
        "\x7b\"path\": \"/components/Button.js\", \"content\": \"import \\\"./Button.css\\\"\"\x7d"⟩ : ToolCall),
      ⟨"showPreview", "\x7b\"message\": \"ok\"\x7d"⟩], callSafe tc = true)
    ∧ (∃ evs st,
        runToolCalls [(⟨"writeFile",
            "\x7b\"path\": \"/components/Button.js\", \"content\": \"import \\\"./Button.css\\\"\"\x7d"⟩ : ToolCall),
          ⟨"showPreview", "\x7b\"message\": \"ok\"\x7d"⟩] initToolLoopState = (evs, some st)
        ∧ streamEvents (some ⟨none, some
            [⟨"writeFile",
              "\x7b\"path\": \"/components/Button.js\", \"content\": \"import \\\"./Button.css\\\"\"\x7d"⟩,
             ⟨"showPreview", "\x7b\"message\": \"ok\"\x7d"⟩]⟩)
            = [.thinking "Analyzing your request...", .thinking "Building your application..."]
              ++ evs ++ autoCssEvents st ++ autoPreviewEvents st
              ++ trailingTextEvents none ++ [.done]
        ∧ (autoCssEvents st).countP
            (fun e => e == StreamEvent.writeFile "/components/Button.css"
              (generatePlaceholderCss "/components/Button.css")
              ("Creating " ++ "/components/Button.css" ++ " (auto-generated)")) = 1
        ∧ (streamEvents (some ⟨none, some
            [⟨"writeFile",
              "\x7b\"path\": \"/components/Button.js\", \"content\": \"import \\\"./Button.css\\\"\"\x7d"⟩,
             ⟨"showPreview", "\x7b\"message\": \"ok\"\x7d"⟩]⟩)).countP
            (fun e => match e with
              | StreamEvent.writeFile p _ _ => p == "/components/Button.css"
              | _ => false) = 1) :=
  ⟨by decide,
   C3_theorem none
     [⟨"writeFile",
        "\x7b\"path\": \"/components/Button.js\", \"content\": \"import \\\"./Button.css\\\"\"\x7d"⟩,
      ⟨"showPreview", "\x7b\"message\": \"ok\"\x7d"⟩]
     "/components/Button.css" (by decide) (by decide) (by decide)⟩

/-- A list of well-formed `writeFile` calls emits exactly their events, in
order, and yields the state whose created/required sets are the corresponding
folds (no cleanliness assumption: CSS imports are allowed and recorded). -/
theorem runToolCalls_ok (wfs : List ToolCall) :
    ∀ st : ToolLoopState, (∀ tc ∈ wfs, wfCallOk tc = true) →
      runToolCalls wfs st = (wfs.map wfEventOf,
        some { hasWrittenFiles := st.hasWrittenFiles || !wfs.isEmpty
               hasCalledShowPreview := st.hasCalledShowPreview
               createdFiles := createdFold wfs st.createdFiles
               requiredCssFiles := requiredFold wfs st.requiredCssFiles }) := by
  induction wfs with
  | nil =>
    intro st _
    simp [runToolCalls, createdFold, requiredFold]
  | cons tc rest ih =>
    intro st h
    have hok := h tc (List.mem_cons_self _ _)
    have hp : ∃ p, wfPathOf tc = some p := by
      unfold wfCallOk at hok
      cases hparse : parseToolArguments tc.arguments with
      | none => rw [hparse] at hok; simp at hok
      | some args =>
        rw [hparse] at hok
        dsimp only at hok
        have hname : tc.name = "writeFile" := by
          cases hn : tc.name == "writeFile" with
          | false => rw [hn] at hok; simp at hok
          | true => exact eq_of_beq hn
        cases hpath : jGetStr args "path" with
        | none => rw [hpath] at hok; simp at hok
        | some p => exact ⟨p, by simp [wfPathOf, hname, hparse, hpath]⟩
    obtain ⟨p, hp⟩ := hp
    have hcf : createdFold (tc :: rest) st.createdFiles
        = createdFold rest (setAdd st.createdFiles ((wfPathOf tc).getD "")) := by
      simp only [createdFold, List.foldl_cons, hp, Option.getD_some]
    have hrf : requiredFold (tc :: rest) st.requiredCssFiles
        = requiredFold rest ((cssImportsOf tc).foldl setAdd st.requiredCssFiles) := rfl
    have hrec := ih
      { hasWrittenFiles := true
        hasCalledShowPreview := st.hasCalledShowPreview
        createdFiles := setAdd st.createdFiles ((wfPathOf tc).getD "")
        requiredCssFiles := (cssImportsOf tc).foldl setAdd st.requiredCssFiles }
      (fun tc' h' => h tc' (List.mem_cons_of_mem _ h'))
    simp only [runToolCalls, stepToolCall_wf tc st hok]
    rw [hrec]
    simp [hcf, hrf, List.isEmpty_cons]

/-- C2 (amended): for a model response whose tool calls are N parseable
`writeFile` calls followed by one parseable `showPreview` call, and any
assistant text content, the emitted sequence is exactly: the two `thinking`
events, the N `writeFile` events in call order, the `showPreview` event, one
auto-generated placeholder `writeFile` event per CSS path imported by a
written file but never written (in first-import order), a `text` event when
the response carries non-empty text content, and one terminating `done` — no
`error` event and nothing else. -/
theorem C2_amended (content? : Option String) (wfs : List ToolCall) (sp : ToolCall)
    (hwfs : ∀ tc ∈ wfs, wfCallOk tc = true)
    (hsp : spCallOk sp = true) :
    streamEvents (some ⟨content?, some (wfs ++ [sp])⟩)
      = [.thinking "Analyzing your request...",
         .thinking "Building your application..."]
        ++ wfs.map wfEventOf ++ [spEventOf sp]
        ++ ((requiredFold wfs []).filter
              (fun p => !((createdFold wfs []).contains p))).map
            (fun p => StreamEvent.writeFile p (generatePlaceholderCss p)
              ("Creating " ++ p ++ " (auto-generated)"))
        ++ trailingTextEvents content? ++ [.done] := by
  have hne : ((wfs ++ [sp]).isEmpty) = false := by
    cases wfs <;> rfl
  have hrun : runToolCalls (wfs ++ [sp]) initToolLoopState
      = (wfs.map wfEventOf ++ [spEventOf sp],
         some { hasWrittenFiles := initToolLoopState.hasWrittenFiles || !wfs.isEmpty
                hasCalledShowPreview := true
                createdFiles := createdFold wfs initToolLoopState.createdFiles
                requiredCssFiles := requiredFold wfs initToolLoopState.requiredCssFiles }) := by
    rw [runToolCalls_append wfs [sp] initToolLoopState,
      runToolCalls_ok wfs initToolLoopState hwfs]
    simp only [runToolCalls,
      stepToolCall_sp sp
        { hasWrittenFiles := initToolLoopState.hasWrittenFiles || !wfs.isEmpty
          hasCalledShowPreview := initToolLoopState.hasCalledShowPreview
          createdFiles := createdFold wfs initToolLoopState.createdFiles
          requiredCssFiles := requiredFold wfs initToolLoopState.requiredCssFiles } hsp]
    rfl
  simp only [streamEvents, Option.isNone_some, Bool.and_false, if_false, hne,
    toolCallsBranch, hrun]
  simp [autoCssEvents, autoPreviewEvents, initToolLoopState]

/-- C2, witness: the amended theorem at a concrete scenario with assistant
text and a written file importing an unwritten stylesheet. -/
theorem C2_witness :
    streamEvents (some ⟨some "Done!", some
      ([⟨"writeFile", "\x7b\"path\": \"/App.js\", \"content\": \"import \\\"./App.css\\\"\"\x7d"⟩]
        ++ [⟨"showPreview", "\x7b\"message\": \"Ready\"\x7d"⟩])⟩)
      = [.thinking "Analyzing your request...",
         .thinking "Building your application..."]
        ++ [⟨"writeFile", "\x7b\"path\": \"/App.js\", \"content\": \"import \\\"./App.css\\\"\"\x7d"⟩].map wfEventOf
        ++ [spEventOf ⟨"showPreview", "\x7b\"message\": \"Ready\"\x7d"⟩]
        ++ ((requiredFold [⟨"writeFile", "\x7b\"path\": \"/App.js\", \"content\": \"import \\\"./App.css\\\"\"\x7d"⟩] []).filter
              (fun p => !((createdFold [⟨"writeFile", "\x7b\"path\": \"/App.js\", \"content\": \"import \\\"./App.css\\\"\"\x7d"⟩] []).contains p))).map
            (fun p => StreamEvent.writeFile p (generatePlaceholderCss p)
              ("Creating " ++ p ++ " (auto-generated)"))
        ++ trailingTextEvents (some "Done!") ++ [.done] :=
  C2_amended (some "Done!")
    [⟨"writeFile", "\x7b\"path\": \"/App.js\", \"content\": \"import \\\"./App.css\\\"\"\x7d"⟩]
    ⟨"showPreview", "\x7b\"message\": \"Ready\"\x7d"⟩
    (by decide) (by decide)

/-! ## Non-streaming generation route (`src/app/api/generate/route.ts`) -/

/-- The closing-brace character. -/
def rcurly : Char := Char.ofNat 125

/-- The React hook names recognised by `normalizeReactImports`, in the order
of the regex alternation and of the `hookNames` array. -/
def reactHookNames : List String :=
  ["useState", "useEffect", "useRef", "useMemo", "useCallback", "useContext", "useReducer"]

/-- Try each alternative of `(useState|useEffect|...)` in order at the head of
the input; on success return the matched name (the replacement `$1`) and the
rest. -/
def tryHookAlt : List String → List Char → Option (List Char × List Char)
  | [], _ => none
  | h :: hs, cs =>
    match eatLit h.data cs with
    | some rest => some (h.data, rest)
    | none => tryHookAlt hs cs

/-- Matcher for one occurrence of the regex
`React.(useState|useEffect|useRef|useMemo|useCallback|useContext|useReducer)`
(replacement `$1`). -/
def tryReactDotHook (cs : List Char) : Option (List Char × List Char) :=
  match eatLit "React.".data cs with
  | some rest => tryHookAlt reactHookNames rest
  | none => none

/-- Does the literal hook name followed by `\s*` and `(` match here? -/
def hookCallAt (hook : List Char) (cs : List Char) : Bool :=
  match eatLit hook cs with
  | some r =>
    match (eatWsStar r).2 with
    | c :: _ => c = '('
    | [] => false
  | none => false

/-- Scan for the regex `\b<hook>\s*\(`: since the hook names start with a word
character, the boundary holds exactly when the previous character is absent or
a non-word character. -/
def hookUsedAux (hook : List Char) : Option Char → List Char → Bool
  | prev, [] =>
    (match prev with | none => true | some p => !isWordChar p) && hookCallAt hook []
  | prev, c :: cs =>
    ((match prev with | none => true | some p => !isWordChar p) && hookCallAt hook (c :: cs))
    || hookUsedAux hook (some c) cs

/-- `new RegExp(backslash-b + hook + backslash-s* + open-paren).test(code)`. -/
def hookUsed (hook : String) (code : String) : Bool :=
  hookUsedAux hook.data none code.data

/-- The `usedHooks` accumulation loop of `normalizeReactImports`. -/
def usedHooksOf (code : String) : List String :=
  reactHookNames.foldl
    (fun acc h => if hookUsed h code && !(acc.contains h) then acc ++ [h] else acc) []

/-- `code.includes("from 'react'") || code.includes('from "react"')`. -/
def hasReactImport (code : String) : Bool :=
  strContainsB code "from \x27react\x27" || strContainsB code "from \"react\""

/-- Match the regex `import\s*\x7b([^\x7d]*)\x7d\s*from\s*[quote]react[quote]`
at the head of the input, returning the capture group (the text between the
braces) and the rest after the match. -/
def matchImportReactAt (cs : List Char) : Option (List Char × List Char) :=
  match eatLit "import".data cs with
  | none => none
  | some r1 =>
    match expectChar lcurly (eatWsStar r1).2 with
    | none => none
    | some r3 =>
      let cap := r3.takeWhile (fun c => !(c = rcurly))
      match expectChar rcurly (r3.dropWhile (fun c => !(c = rcurly))) with
      | none => none
      | some r5 =>
        match eatLit "from".data (eatWsStar r5).2 with
        | none => none
        | some r7 =>
          match (eatWsStar r7).2 with
          | [] => none
          | q1 :: r9 =>
            if isQuoteChar q1 then
              match eatLit "react".data r9 with
              | none => none
              | some r10 =>
                match r10 with
                | [] => none
                | q2 :: r11 => if isQuoteChar q2 then some (cap, r11) else none
            else none

/-- First match of the react-import regex: the text before the match, the
capture group, and the rest after the match. -/
def scanImportReact : List Char → Option (List Char × List Char × List Char)
  | [] => none
  | c :: cs =>
    match matchImportReactAt (c :: cs) with
    | some (cap, rest) => some ([], cap, rest)
    | none =>
      match scanImportReact cs with
      | some (pre, cap, rest) => some (c :: pre, cap, rest)
      | none => none

/-- `String.prototype.split(",")`. -/
def splitComma : List Char → List (List Char)
  | [] => [[]]
  | c :: cs =>
    if c = ',' then [] :: splitComma cs
    else
      match splitComma cs with
      | h :: t => (c :: h) :: t
      | [] => [[c]]

/-- `String.prototype.trim()` (over the source's ASCII whitespace). -/
def jsTrim (cs : List Char) : List Char :=
  ((cs.dropWhile isWsChar).reverse.dropWhile isWsChar).reverse

/-- `Array.prototype.join(", ")`. -/
def joinCommaSpace : List String → String
  | [] => ""
  | [x] => x
  | x :: xs => x ++ ", " ++ joinCommaSpace xs

/-- `normalizeReactImports` of the non-streaming route: rewrite
`React.useXxx` to `useXxx`, detect the used hooks, and prepend or merge the
react import accordingly. -/
def normalizeReactImports (code0 : String) : String :=
  let code1 := runReplace tryReactDotHook code0
  let usedHooks := usedHooksOf code1
  if usedHooks.length > 0 then
    if !hasReactImport code1 then
      "import \x7b " ++ joinCommaSpace usedHooks ++ " \x7d from \x27react\x27;\n\n" ++ code1
    else
      match scanImportReact code1.data with
      | some (pre, cap, rest) =>
        let currentImports :=
          ((splitComma cap).map (fun l => String.mk (jsTrim l))).filter (fun s => !(s = ""))
        let missingHooks := usedHooks.filter (fun h => !(currentImports.contains h))
        if missingHooks.length > 0 then
          let allImports := (currentImports ++ missingHooks).foldl setAdd []
          String.mk (pre
            ++ ("import \x7b " ++ joinCommaSpace allImports ++ " \x7d from \x27react\x27").data
            ++ rest)
        else code1
      | none => code1
  else code1

/-- The `for (const [path, code] of Object.entries(result.files))` loop:
only string values whose key ends in `.js` are kept, normalized. -/
def processFilesAux (entries : List (String × JVal)) (acc : List (String × String)) :
    List (String × String) :=
  match entries with
  | [] => acc
  | (p, v) :: t =>
    processFilesAux t
      (match v with
       | JVal.jstr s => if strEndsWith p ".js" then jsSet acc p (normalizeReactImports s) else acc
       | _ => acc)

/-- `processedFiles` built from the entries of `result.files`. -/
def processFiles (entries : List (String × JVal)) : List (String × String) :=
  processFilesAux entries []

/-- The fallback `App` component of the non-streaming route. -/
def noComponentApp : String :=
  "export default function App() \x7b\n  return (\n    <div className=\"min-h-screen bg-slate-100 flex items-center justify-center\">\n      <p className=\"text-slate-500\">No component generated</p>\n    </div>\n  );\n\x7d"

/-- `if (!processedFiles["/App.js"]) processedFiles["/App.js"] = ...`:
a missing or empty entry is replaced by the fallback component. -/
def ensureAppJs (pf : List (String × String)) : List (String × String) :=
  if jsTruthyS (jsGet pf "/App.js") then pf else jsSet pf "/App.js" noComponentApp

/-- The `files` map of a non-streaming response of type `code`, as a function
of the entries of `result.files` (`none` when `result.files` is absent). -/
def codeResponseFiles (files? : Option (List (String × JVal))) : List (String × String) :=
  ensureAppJs (match files? with
    | some entries => processFiles entries
    | none => [])

theorem mem_keys_jsSet {α : Type} (l : List (String × α)) (k : String) (v : α)
    (p : String) (hp : p ∈ (jsSet l k v).map Prod.fst) :
    p ∈ l.map Prod.fst ∨ p = k := by
  induction l with
  | nil =>
    simp [jsSet] at hp
    exact Or.inr hp
  | cons a t ih =>
    rw [jsSet] at hp
    by_cases hk : a.1 = k
    · rw [if_pos hk] at hp
      rcases List.mem_map.mp hp with ⟨x, hx, rfl⟩
      rcases List.mem_cons.mp hx with rfl | hxt
      · exact Or.inr rfl
      · exact Or.inl (List.mem_map_of_mem _ (List.mem_cons_of_mem _ hxt))
    · rw [if_neg hk] at hp
      rcases List.mem_map.mp hp with ⟨x, hx, rfl⟩
      rcases List.mem_cons.mp hx with rfl | hxt
      · exact Or.inl (List.mem_map_of_mem _ (List.mem_cons_self _ _))
      · rcases ih (List.mem_map_of_mem _ hxt) with h | h
        · exact Or.inl (List.mem_map.mpr (by
            rcases List.mem_map.mp h with ⟨y, hy, hye⟩
            exact ⟨y, List.mem_cons_of_mem _ hy, hye⟩))
        · exact Or.inr h

theorem processFilesAux_keys (entries : List (String × JVal)) (acc : List (String × String))
    (hacc : ∀ p ∈ acc.map Prod.fst, strEndsWith p ".js" = true) :
    ∀ p ∈ (processFilesAux entries acc).map Prod.fst, strEndsWith p ".js" = true := by
  induction entries generalizing acc with
  | nil => exact hacc
  | cons e t ih =>
    obtain ⟨p0, v⟩ := e
    cases v with
    | jstr s =>
      simp only [processFilesAux]
      by_cases hjs : strEndsWith p0 ".js" = true
      · rw [if_pos hjs]
        refine ih _ (fun p hp => ?_)
        rcases mem_keys_jsSet acc p0 (normalizeReactImports s) p hp with h | rfl
        · exact hacc p h
        · exact hjs
      · rw [if_neg hjs]
        exact ih _ hacc
    | jnull => exact ih _ hacc
    | jbool b => exact ih _ hacc
    | jnum n => exact ih _ hacc
    | jarr xs => exact ih _ hacc
    | jobj fs => exact ih _ hacc

theorem ensureAppJs_spec (pf : List (String × String))
    (hpf : ∀ p ∈ pf.map Prod.fst, strEndsWith p ".js" = true) :
    (∀ p ∈ (ensureAppJs pf).map Prod.fst, strEndsWith p ".js" = true)
    ∧ ∃ s, jsGet (ensureAppJs pf) "/App.js" = some s ∧ ¬ s = "" := by
  unfold ensureAppJs
  cases htr : jsTruthyS (jsGet pf "/App.js") with
  | true =>
    rw [if_pos rfl]
    refine ⟨hpf, ?_⟩
    unfold jsTruthyS at htr
    cases hget : jsGet pf "/App.js" with
    | none => rw [hget] at htr; cases htr
    | some s =>
      rw [hget] at htr
      refine ⟨s, rfl, fun hs => ?_⟩
      rw [hs] at htr
      cases htr
  | false =>
    rw [if_neg Bool.false_ne_true]
    constructor
    · intro p hp
      rcases mem_keys_jsSet pf "/App.js" noComponentApp p hp with h | rfl
      · exact hpf p h
      · decide
    · exact ⟨noComponentApp, jsGet_jsSet_self pf "/App.js" noComponentApp, by decide⟩

/-- C9: every non-streaming `code` response satisfies the invariant that all
keys of its `files` map end in `.js` (entries with non-string values or other
extensions are dropped) and `/App.js` is present with non-empty content, the
fixed fallback component being substituted when the model produced no usable
`/App.js`. -/
theorem C9_theorem (files? : Option (List (String × JVal))) :
    (∀ p ∈ (codeResponseFiles files?).map Prod.fst, strEndsWith p ".js" = true)
    ∧ ∃ s, jsGet (codeResponseFiles files?) "/App.js" = some s ∧ ¬ s = "" := by
  cases files? with
  | none => exact ensureAppJs_spec [] (fun p hp => by cases hp)
  | some entries =>
    exact ensureAppJs_spec (processFiles entries)
      (processFilesAux_keys entries [] (fun p hp => by cases hp))

end WebBuilder
